import Mathlib

/-!
# A verification development for the Tegra I2C packet transfer engine

Shallow embedding of `drivers/i2c/tegra_i2c.c`: the packet header builder,
the FIFO word-transfer loop, the completion/error pollers and the
reset/recovery path, together with the caller-facing facade
(`tegra_i2c_read`, `tegra_i2c_write`, `tegra_i2c_probe`,
`tegra_i2c_set_bus_speed`).

Modelling conventions:
* Machine `u32` values are natural numbers reduced modulo `2^32` where the C
  code can overflow (`u32` below).
* Memory (the caller's payload buffer, plus the locals the driver stages
  through) is a function `Nat → Nat` from byte addresses to byte values;
  every read is taken `% 256`.
* Hardware register traffic is recorded as an explicit event trace
  (`Ev`): FIFO word writes/reads, byte stores into the caller buffer,
  the interrupt-status clear, the peripheral reset and the configuration
  writes of the recovery path.
* The hardware's observable behaviour is an environment `HwEnv`: streams of
  `fifo_status` / `int_status` register readings (one stream per polling
  call, indexed by the payload word counter) and the stream of words the rx
  FIFO yields.  The polling loops of the C source are modelled verbatim as
  fuel-bounded loops over those streams.
-/

set_option maxRecDepth 8192

/-! ## Register-layout constants

The controller register header (`asm/arch-tegra/tegra_i2c.h`) is not among
the sources; the constants below reproduce the bit fields it declares.
-/

/-- Modelled from the spec: packet protocol type constant for I2C packets
(header word 1), from the missing controller header. -/
def PROTOCOL_TYPE_I2C : Nat := 1

/-- Modelled from the spec: bit position of the protocol-type field in
packet header word 1, from the missing controller header. -/
def PKT_HDR1_PROTOCOL_SHIFT : Nat := 4

/-- Modelled from the spec: bit position of the packet-sequence-id field in
packet header word 1, from the missing controller header. -/
def PKT_HDR1_PKT_ID_SHIFT : Nat := 16

/-- Modelled from the spec: bit position of the controller-id field in
packet header word 1, from the missing controller header. -/
def PKT_HDR1_CTLR_ID_SHIFT : Nat := 12

/-- Modelled from the spec: bit position of the payload-size field
(`payload_length - 1`) in packet header word 2, from the missing
controller header. -/
def PKT_HDR2_PAYLOAD_SIZE_SHIFT : Nat := 0

/-- Modelled from the spec: width mask of the payload-size field in packet
header word 2 (a 12-bit field), from the missing controller header. -/
def PKT_HDR2_PAYLOAD_SIZE_MASK : Nat := 0xfff <<< PKT_HDR2_PAYLOAD_SIZE_SHIFT

/-- Modelled from the spec: bit position of the 8-bit slave-address field in
packet header word 3, from the missing controller header. -/
def PKT_HDR3_SLAVE_ADDR_SHIFT : Nat := 0

/-- Modelled from the spec: bit position of the read-mode bit in packet
header word 3, from the missing controller header. -/
def PKT_HDR3_READ_MODE_SHIFT : Nat := 19

/-- Modelled from the spec: read-mode bit mask in packet header word 3,
from the missing controller header. -/
def PKT_HDR3_READ_MODE_MASK : Nat := 1 <<< PKT_HDR3_READ_MODE_SHIFT

/-- Modelled from the spec: "no acknowledge" bit of the interrupt-status
register, from the missing controller header. -/
def I2C_INT_NO_ACK_MASK : Nat := 1 <<< 3

/-- Modelled from the spec: "arbitration lost" bit of the interrupt-status
register, from the missing controller header. -/
def I2C_INT_ARBITRATION_LOST_MASK : Nat := 1 <<< 2

/-- Modelled from the spec: "transfer complete" bit of the interrupt-status
register, from the missing controller header. -/
def I2C_INT_XFER_COMPLETE_MASK : Nat := 1 <<< 7

/-- Modelled from the spec: shift of the transmit-FIFO empty-slot count
field of the FIFO status register, from the missing controller header. -/
def TX_FIFO_EMPTY_CNT_SHIFT : Nat := 4

/-- Modelled from the spec: mask of the transmit-FIFO empty-slot count
field of the FIFO status register, from the missing controller header. -/
def TX_FIFO_EMPTY_CNT_MASK : Nat := 0xf <<< TX_FIFO_EMPTY_CNT_SHIFT

/-- Modelled from the spec: shift of the receive-FIFO occupied count field
of the FIFO status register, from the missing controller header.  (The C
macro is named `TX_FIFO_FULL_CNT`; per the spec it is the receive FIFO's
occupied-entry count, the low nibble of the FIFO status register.) -/
def TX_FIFO_FULL_CNT_SHIFT : Nat := 0

/-- Modelled from the spec: mask of the receive-FIFO occupied count field
of the FIFO status register, from the missing controller header. -/
def TX_FIFO_FULL_CNT_MASK : Nat := 0xf <<< TX_FIFO_FULL_CNT_SHIFT

/-- Modelled from the spec: FIFO depth in 32-bit words, from the missing
controller header. -/
def I2C_FIFO_DEPTH : Nat := 8

/-- Modelled from the spec: the fixed polling timeout budget in
microseconds, from the missing controller header (each poll re-checks every
10 microseconds until the budget is exhausted). -/
def I2C_TIMEOUT_USEC : Nat := 10000

/-- Modelled from the spec: direction flag bit of a transfer descriptor
(`flags & I2C_IS_WRITE` selects the write direction), from the missing
controller header. -/
def I2C_IS_WRITE : Nat := 1

/-- Modelled from the spec: "new master FSM" bit of the configuration
register, from the missing controller header. -/
def I2C_CNFG_NEW_MASTER_FSM_MASK : Nat := 1 <<< 11

/-- Modelled from the spec: "packet mode" bit of the configuration
register, from the missing controller header. -/
def I2C_CNFG_PACKET_MODE_MASK : Nat := 1 <<< 10

/-- Truncation to an unsigned 32-bit machine word. -/
def u32 (n : Nat) : Nat := n % 4294967296

/-- `DIV_ROUND_UP(n, d)` from the u-boot headers, as the C source evaluates
it on `u32` operands: the sum `n + d - 1` is unsigned 32-bit arithmetic and
wraps modulo `2^32` before the division (so for `num_bytes` at or above
`0xfffffffd` the word count wraps to 0). -/
def DIV_ROUND_UP (n d : Nat) : Nat := u32 (n + d - 1) / d

/-! ## Event traces and hardware environment -/

/-- One observable effect of the driver on the hardware or the caller's
memory.  `txWrite`/`rxRead` are 32-bit data/command FIFO accesses,
`store` is one byte written into the caller's buffer, the rest are the
control-register effects of status clearing and of the recovery path. -/
inductive Ev where
  | txWrite : Nat → Ev
  | rxRead : Nat → Ev
  | store : Nat → Nat → Ev
  | intStatusClear : Ev
  | resetPeriph : Ev
  | cfgWrite : Nat → Ev
  | slCnfgSet : Ev
  | clockStart : Ev
  | clkDivRead : Ev
  | ctrl3Set : Ev
  | funcmuxSel : Ev
  deriving DecidableEq, Repr

/-- `struct i2c_bus`: the per-controller record (discovery fields that the
transfer engine never reads are omitted; register base pointers are implicit
in the event trace). -/
structure i2c_bus where
  id : Nat
  speed : Nat
  is_dvc : Bool
  is_scs : Bool
  inited : Bool
  deriving Repr

/-- `struct i2c_trans_info`: one packet-protocol transaction descriptor.
`buf` is the base address of the payload buffer in the modelled memory. -/
structure i2c_trans_info where
  address : Nat
  buf : Nat
  flags : Nat
  num_bytes : Nat
  is_10bit_address : Nat
  deriving Repr

/-- The hardware's observable behaviour during one `send_recv_packets`
call.  `txFifoStatus k` is the stream of `fifo_status` readings seen by the
`k`-th `wait_for_tx_fifo_empty` call, `rxFifoStatus k` likewise for the
`k`-th `wait_for_rx_fifo_notempty` call, `rxWord k` is the `k`-th word read
from the rx FIFO, `intStatus` is the stream of `int_status` readings seen
by `wait_for_transfer_complete`, and `intStatus0` is the value read (and
written back) by the initial status clear. -/
structure HwEnv where
  txFifoStatus : Nat → Nat → Nat
  rxFifoStatus : Nat → Nat → Nat
  rxWord : Nat → Nat
  intStatus : Nat → Nat
  intStatus0 : Nat

/-! ## Byte/word marshalling

The Tegra is little-endian: both `memcpy` into a `u32` staging variable and
a direct aligned `u32` load/store move the same four bytes, with the byte
at the lowest address in the least significant position.
-/

/-- The 32-bit value obtained by reading four bytes at address `p`
(little-endian), as done by both branches of the write path. -/
def leWordAt (mem : Nat → Nat) (p : Nat) : Nat :=
  (mem p % 256) + 256 * (mem (p + 1) % 256) +
    65536 * (mem (p + 2) % 256) + 16777216 * (mem (p + 3) % 256)

/-- The byte-store events of copying the `n` low-order bytes of the 32-bit
staging value `v` to address `dptr` (little-endian), as done by
`memcpy(dptr, &local, n)` and, for `n = 4`, by an aligned word store. -/
def storeBytes (v dptr n : Nat) : List Ev :=
  (List.range n).map fun i => Ev.store (dptr + i) ((v >>> (8 * i)) % 256)

/-- The byte stores contained in a trace, in order. -/
def storeEvs (evs : List Ev) : List (Nat × Nat) :=
  evs.filterMap fun e =>
    match e with
    | Ev.store a b => some (a, b)
    | _ => none

/-- Number of 32-bit words written to the command/data FIFO in a trace. -/
def countTx (evs : List Ev) : Nat :=
  evs.countP fun e =>
    match e with
    | Ev.txWrite _ => true
    | _ => false

/-- Number of 32-bit words read from the rx FIFO in a trace. -/
def countRx (evs : List Ev) : Nat :=
  evs.countP fun e =>
    match e with
    | Ev.rxRead _ => true
    | _ => false

/-- Replay a list of byte stores onto a memory; later stores win. -/
def writeBack (l : List (Nat × Nat)) (m : Nat → Nat) : Nat → Nat :=
  l.foldl (fun m ab => Function.update m ab.1 ab.2) m

/-! ## The pollers (`wait_for_*`)

Each C loop starts with `timeout_us = I2C_TIMEOUT_USEC`, re-checks while
`timeout_us >= 0` and subtracts 10 each round, so it performs exactly
`I2C_TIMEOUT_USEC / 10 + 1` register reads before giving up.
-/

/-- Number of register reads a poller performs before timing out. -/
def pollReads : Nat := I2C_TIMEOUT_USEC / 10 + 1

/-- The transmit-FIFO empty-slot count field of a `fifo_status` value. -/
def tx_fifo_empty_cnt (s : Nat) : Nat :=
  (s &&& TX_FIFO_EMPTY_CNT_MASK) >>> TX_FIFO_EMPTY_CNT_SHIFT

/-- The receive-FIFO occupied count field of a `fifo_status` value. -/
def rx_fifo_full_cnt (s : Nat) : Nat :=
  (s &&& TX_FIFO_FULL_CNT_MASK) >>> TX_FIFO_FULL_CNT_SHIFT

/-- The loop of `wait_for_tx_fifo_empty` over a stream `f` of `fifo_status`
readings: returns 1 as soon as the empty-slot count equals the FIFO depth,
0 when the fuel (remaining timeout budget) runs out. -/
def wait_tx_loop (f : Nat → Nat) : Nat → Nat → Nat
  | 0, _ => 0
  | fuel + 1, i =>
    if tx_fifo_empty_cnt (f i) = I2C_FIFO_DEPTH then 1
    else wait_tx_loop f fuel (i + 1)

/-- `wait_for_tx_fifo_empty`, over the stream of `fifo_status` readings it
performs. -/
def wait_for_tx_fifo_empty (f : Nat → Nat) : Nat :=
  wait_tx_loop f pollReads 0

/-- The loop of `wait_for_rx_fifo_notempty` over a stream `f` of
`fifo_status` readings: returns 1 as soon as the receive occupied count is
nonzero, 0 when the fuel runs out. -/
def wait_rx_loop (f : Nat → Nat) : Nat → Nat → Nat
  | 0, _ => 0
  | fuel + 1, i =>
    if rx_fifo_full_cnt (f i) ≠ 0 then 1
    else wait_rx_loop f fuel (i + 1)

/-- `wait_for_rx_fifo_notempty`, over the stream of `fifo_status` readings
it performs. -/
def wait_for_rx_fifo_notempty (f : Nat → Nat) : Nat :=
  wait_rx_loop f pollReads 0

/-- The loop of `wait_for_transfer_complete` over a stream `f` of
`int_status` readings: a negated status snapshot on a no-ack or
arbitration-lost bit, 0 on the transfer-complete bit, `-1` on timeout. -/
def wait_transfer_loop (f : Nat → Nat) : Nat → Nat → Int
  | 0, _ => -1
  | fuel + 1, i =>
    let int_status := f i
    if int_status &&& I2C_INT_NO_ACK_MASK ≠ 0 then -(int_status : Int)
    else if int_status &&& I2C_INT_ARBITRATION_LOST_MASK ≠ 0 then
      -(int_status : Int)
    else if int_status &&& I2C_INT_XFER_COMPLETE_MASK ≠ 0 then 0
    else wait_transfer_loop f fuel (i + 1)

/-- `wait_for_transfer_complete`, over the stream of `int_status` readings
it performs. -/
def wait_for_transfer_complete (f : Nat → Nat) : Int :=
  wait_transfer_loop f pollReads 0

/-! ## Packet header builder and recovery path -/

/-- Packet header word 1: protocol type, packet sequence id, controller
id. -/
def pkt_hdr1 (busId packet_id : Nat) : Nat :=
  u32 (PROTOCOL_TYPE_I2C <<< PKT_HDR1_PROTOCOL_SHIFT |||
       packet_id <<< PKT_HDR1_PKT_ID_SHIFT |||
       busId <<< PKT_HDR1_CTLR_ID_SHIFT)

/-- Packet header word 2: `(num_bytes - 1) << PKT_HDR2_PAYLOAD_SIZE_SHIFT`
in unsigned 32-bit arithmetic (for `num_bytes = 0` the subtraction wraps
modulo `2^32`). -/
def pkt_hdr2 (num_bytes : Nat) : Nat :=
  u32 (u32 (num_bytes + 4294967295) <<< PKT_HDR2_PAYLOAD_SIZE_SHIFT)

/-- Packet header word 3: the 8-bit hardware address in its field, with the
read-mode bit set when the transaction is not a write. -/
def pkt_hdr3 (address flags : Nat) : Nat :=
  let d := u32 (address <<< PKT_HDR3_SLAVE_ADDR_SHIFT)
  if flags &&& I2C_IS_WRITE = 0 then d ||| PKT_HDR3_READ_MODE_MASK else d

/-- `send_packet_headers`: writes the three header words to the command
FIFO, in order, with no other register access. -/
def send_packet_headers (bus : i2c_bus) (trans : i2c_trans_info)
    (packet_id : Nat) : List Ev :=
  [Ev.txWrite (pkt_hdr1 bus.id packet_id),
   Ev.txWrite (pkt_hdr2 trans.num_bytes),
   Ev.txWrite (pkt_hdr3 trans.address trans.flags)]

/-- `set_packet_mode`: programs the configuration register into packet
mode; for non-DVC controllers additionally sets the `NEWSL` slave-config
compatibility bit. -/
def set_packet_mode (bus : i2c_bus) : List Ev :=
  let config := u32 (I2C_CNFG_NEW_MASTER_FSM_MASK ||| I2C_CNFG_PACKET_MODE_MASK)
  if bus.is_dvc then [Ev.cfgWrite config]
  else [Ev.cfgWrite config, Ev.slCnfgSet]

/-- `i2c_reset_controller`: peripheral reset followed by reprogramming
packet mode. -/
def i2c_reset_controller (bus : i2c_bus) : List Ev :=
  Ev.resetPeriph :: set_packet_mode bus

/-- `i2c_init_controller`: clock programming (twice for single-clock-source
parts, with a divisor readback in between), controller reset, the
DVC-specific control write, and pinmux selection. -/
def i2c_init_controller (bus : i2c_bus) : List Ev :=
  [Ev.clockStart] ++
    (if bus.is_scs then [Ev.clkDivRead, Ev.clockStart] else []) ++
    i2c_reset_controller bus ++
    (if bus.is_dvc then [Ev.ctrl3Set] else []) ++
    [Ev.funcmuxSel]

/-! ## The word transfer loop and `send_recv_packets` -/

/-- The payload word loop of `send_recv_packets`.  Arguments after the
environment: remaining word count `words`, current buffer pointer `dptr`,
and the index `k` of the current payload word (used to select the register
streams of this iteration's polls).  Returns the event trace of the loop
and the C `error` value (0 or -1). -/
def xfer_words (hw : HwEnv) (mem : Nat → Nat) (is_write : Bool)
    (last_bytes : Nat) : Nat → Nat → Nat → List Ev × Int
  | 0, _, _ => ([], 0)
  | words + 1, dptr, k =>
    if is_write then
      -- Unaligned buffers are staged through `memcpy` into a local u32,
      -- aligned ones are loaded directly; on this little-endian hardware
      -- both paths hand the same word value to `writel`.
      let w := if dptr % 4 ≠ 0 then leWordAt mem dptr else leWordAt mem dptr
      if wait_for_tx_fifo_empty (hw.txFifoStatus k) = 0 then
        ([Ev.txWrite w], -1)
      else
        let rest := xfer_words hw mem is_write last_bytes words (dptr + 4) (k + 1)
        (Ev.txWrite w :: rest.1, rest.2)
    else
      if wait_for_rx_fifo_notempty (hw.rxFifoStatus k) = 0 then ([], -1)
      else
        let v := hw.rxWord k
        -- The final word of a payload with a partial trailing byte count
        -- only copies that many low-order bytes; otherwise the word is
        -- stored in full (byte-wise when unaligned, directly when
        -- aligned — the same four byte stores either way).
        let stores :=
          if words = 0 && last_bytes ≠ 0 then storeBytes v dptr last_bytes
          else if dptr % 4 ≠ 0 then storeBytes v dptr 4
          else storeBytes v dptr 4
        let rest := xfer_words hw mem is_write last_bytes words (dptr + 4) (k + 1)
        (Ev.rxRead v :: (stores ++ rest.1), rest.2)

/-- `send_recv_packets`: clears the interrupt status, sends the three
header words, runs the payload word loop, then waits for transfer
completion; on any failure the controller is reset (recovery) before the
nonzero error is returned. -/
def send_recv_packets (bus : i2c_bus) (trans : i2c_trans_info)
    (hw : HwEnv) (mem : Nat → Nat) : List Ev × Int :=
  let is_write := trans.flags &&& I2C_IS_WRITE != 0
  let words := DIV_ROUND_UP trans.num_bytes 4
  let last_bytes := trans.num_bytes &&& 3
  let pre := Ev.intStatusClear :: send_packet_headers bus trans 1
  let loop := xfer_words hw mem is_write last_bytes words trans.buf 0
  if loop.2 ≠ 0 then (pre ++ loop.1 ++ i2c_reset_controller bus, loop.2)
  else if wait_for_transfer_complete hw.intStatus ≠ 0 then
    (pre ++ loop.1 ++ i2c_reset_controller bus, -1)
  else (pre ++ loop.1, 0)

/-! ## Transaction facade -/

/-- The transfer descriptor built by `tegra_i2c_write_data`. -/
def write_trans_info (addr bufBase len : Nat) : i2c_trans_info :=
  { address := addr, buf := bufBase, flags := I2C_IS_WRITE,
    num_bytes := len, is_10bit_address := 0 }

/-- The transfer descriptor built by `tegra_i2c_read_data` (the low address
bit marks a read on the wire). -/
def read_trans_info (addr bufBase len : Nat) : i2c_trans_info :=
  { address := addr ||| 1, buf := bufBase, flags := 0,
    num_bytes := len, is_10bit_address := 0 }

/-- `tegra_i2c_write_data`. -/
def tegra_i2c_write_data (bus : i2c_bus) (addr bufBase len : Nat)
    (hw : HwEnv) (mem : Nat → Nat) : List Ev × Int :=
  send_recv_packets bus (write_trans_info addr bufBase len) hw mem

/-- `tegra_i2c_read_data`. -/
def tegra_i2c_read_data (bus : i2c_bus) (addr bufBase len : Nat)
    (hw : HwEnv) (mem : Nat → Nat) : List Ev × Int :=
  send_recv_packets bus (read_trans_info addr bufBase len) hw mem

/-- `i2c_write_data`: shifts the 7-bit chip address into the hardware's
8-bit address field and delegates. -/
def i2c_write_data (bus : i2c_bus) (chip bufBase len : Nat)
    (hw : HwEnv) (mem : Nat → Nat) : List Ev × Int :=
  tegra_i2c_write_data bus (u32 (chip <<< 1)) bufBase len hw mem

/-- `i2c_read_data`: shifts the 7-bit chip address and delegates. -/
def i2c_read_data (bus : i2c_bus) (chip bufBase len : Nat)
    (hw : HwEnv) (mem : Nat → Nat) : List Ev × Int :=
  tegra_i2c_read_data bus (u32 (chip <<< 1)) bufBase len hw mem

/-- `tegra_i2c_get_bus`: the controller table lookup; `none` when the
controller's `inited` flag is clear. -/
def tegra_i2c_get_bus (buses : Nat → i2c_bus) (hwadapnr : Nat) :
    Option i2c_bus :=
  if (buses hwadapnr).inited then some (buses hwadapnr) else none

/-- `tegra_i2c_set_bus_speed`: returns 0 when the bus is unavailable;
otherwise records the speed and re-runs controller initialization — and
also returns 0. -/
def tegra_i2c_set_bus_speed (buses : Nat → i2c_bus) (hwadapnr speed : Nat) :
    Nat × List Ev :=
  match tegra_i2c_get_bus buses hwadapnr with
  | none => (0, [])
  | some bus => (0, i2c_init_controller { bus with speed := speed })

/-- The one-byte stack buffer of `tegra_i2c_probe` (`reg = 0`) at address
`base`, embedded in arbitrary surrounding memory `pad` (the three pad bytes
the final FIFO word picks up beyond the buffer are unspecified). -/
def probe_mem (base : Nat) (pad : Nat → Nat) : Nat → Nat :=
  fun a => if a = base then 0 else pad a

/-- `tegra_i2c_probe`: a 1-byte write of a zero byte to the chip address;
returns 0 (present) exactly when the write reports no error, 1 otherwise. -/
def tegra_i2c_probe (buses : Nat → i2c_bus) (hwadapnr chip base : Nat)
    (pad : Nat → Nat) (hw : HwEnv) : Nat × List Ev :=
  match tegra_i2c_get_bus buses hwadapnr with
  | none => (1, [])
  | some bus =>
    let r := i2c_write_data bus chip base 1 hw (probe_mem base pad)
    (if r.2 ≠ 0 then 1 else 0, r.1)

/-- `i2c_addr_ok`: register-address widths of 1 or 2 bytes are accepted. -/
def i2c_addr_ok (_addr alen : Nat) : Bool :=
  alen == 1 || alen == 2

/-- The big-endian register-address staging loop of the facade:
`data[alen - i - 1] = v >> (8 * i)` for `i < alen`, at base address
`base`. -/
def storeBEbytes (mem : Nat → Nat) (base alen v : Nat) : Nat → Nat :=
  fun a =>
    if base ≤ a ∧ a < base + alen then (v >>> (8 * (base + alen - 1 - a))) % 256
    else mem a

/-- The per-offset loop of `tegra_i2c_read`: for each byte, write the
register address (when `alen` is nonzero), then read one byte.  `hws`
supplies the hardware environment of each successive `send_recv_packets`
call, indexed by a running transaction counter.  Returns the C error value,
the event trace and the final memory (the caller's buffer mutated by the
read transactions). -/
def tegra_i2c_read_loop (bus : i2c_bus) (chip addr alen bufBase dataBase : Nat)
    (hws : Nat → HwEnv) : Nat → Nat → Nat → (Nat → Nat) → Nat × List Ev × (Nat → Nat)
  | 0, _, _, mem => (0, [], mem)
  | n + 1, offset, t, mem =>
    if alen ≠ 0 then
      let mem1 := storeBEbytes mem dataBase alen (addr + offset)
      let w := i2c_write_data bus chip dataBase alen (hws t) mem1
      if w.2 ≠ 0 then (1, w.1, mem1)
      else
        let r := i2c_read_data bus chip (bufBase + offset) 1 (hws (t + 1)) mem1
        let mem2 := writeBack (storeEvs r.1) mem1
        if r.2 ≠ 0 then (1, w.1 ++ r.1, mem2)
        else
          let rest := tegra_i2c_read_loop bus chip addr alen bufBase dataBase
            hws n (offset + 1) (t + 2) mem2
          (rest.1, w.1 ++ r.1 ++ rest.2.1, rest.2.2)
    else
      let r := i2c_read_data bus chip (bufBase + offset) 1 (hws t) mem
      let mem2 := writeBack (storeEvs r.1) mem
      if r.2 ≠ 0 then (1, r.1, mem2)
      else
        let rest := tegra_i2c_read_loop bus chip addr alen bufBase dataBase
          hws n (offset + 1) (t + 1) mem2
        (rest.1, r.1 ++ rest.2.1, rest.2.2)

/-- `tegra_i2c_read`: bus lookup, address-width validation, then the
per-byte loop. -/
def tegra_i2c_read (buses : Nat → i2c_bus)
    (hwadapnr chip addr alen bufBase dataBase len : Nat)
    (hws : Nat → HwEnv) (mem : Nat → Nat) : Nat × List Ev × (Nat → Nat) :=
  match tegra_i2c_get_bus buses hwadapnr with
  | none => (1, [], mem)
  | some bus =>
    if i2c_addr_ok addr alen then
      tegra_i2c_read_loop bus chip addr alen bufBase dataBase hws len 0 0 mem
    else (1, [], mem)

/-- The per-offset loop of `tegra_i2c_write`: for each byte, stage the
big-endian register address plus the data byte and write them in one
transaction. -/
def tegra_i2c_write_loop (bus : i2c_bus) (chip addr alen bufBase dataBase : Nat)
    (hws : Nat → HwEnv) (mem : Nat → Nat) : Nat → Nat → Nat → Nat × List Ev
  | 0, _, _ => (0, [])
  | n + 1, offset, t =>
    let mem1 := Function.update (storeBEbytes mem dataBase alen (addr + offset))
      (dataBase + alen) (mem (bufBase + offset) % 256)
    let w := i2c_write_data bus chip dataBase (alen + 1) (hws t) mem1
    if w.2 ≠ 0 then (1, w.1)
    else
      let rest := tegra_i2c_write_loop bus chip addr alen bufBase dataBase
        hws mem n (offset + 1) (t + 1)
      (rest.1, w.1 ++ rest.2)

/-- `tegra_i2c_write`: bus lookup, address-width validation, then the
per-byte loop. -/
def tegra_i2c_write (buses : Nat → i2c_bus)
    (hwadapnr chip addr alen bufBase dataBase len : Nat)
    (hws : Nat → HwEnv) (mem : Nat → Nat) : Nat × List Ev :=
  match tegra_i2c_get_bus buses hwadapnr with
  | none => (1, [])
  | some bus =>
    if i2c_addr_ok addr alen then
      tegra_i2c_write_loop bus chip addr alen bufBase dataBase hws mem len 0 0
    else (1, [])

/-! ## Closed forms of the transfer loop (analysis helpers) -/

/-- Closed form of the event trace of a successful read-direction run of
`xfer_words` with `w` words left, buffer pointer `p` and word index `k`. -/
def recvEvs (hw : HwEnv) (lb : Nat) : Nat → Nat → Nat → List Ev
  | 0, _, _ => []
  | w + 1, p, k =>
    Ev.rxRead (hw.rxWord k) ::
      (storeBytes (hw.rxWord k) p (if w = 0 ∧ lb ≠ 0 then lb else 4) ++
        recvEvs hw lb w (p + 4) (k + 1))

/-- Closed form of the event trace of an aborted read-direction run that
completed `t` full (non-final) words before its receive poll failed. -/
def recvFullEvs (hw : HwEnv) : Nat → Nat → Nat → List Ev
  | 0, _, _ => []
  | t + 1, p, k =>
    Ev.rxRead (hw.rxWord k) ::
      (storeBytes (hw.rxWord k) p 4 ++ recvFullEvs hw t (p + 4) (k + 1))

/-! ## Concrete fixtures for witnesses -/

/-- A configured, initialized non-DVC controller. -/
def busA : i2c_bus :=
  { id := 1, speed := 100000, is_dvc := false, is_scs := false, inited := true }

/-- A concrete source memory. -/
def memA : Nat → Nat := fun a => (a + 1) % 256

/-- A fully responsive hardware environment: the tx FIFO always reports all
8 slots empty, the rx FIFO always reports one occupied entry, and the
status register reports transfer-complete. -/
def hwOkA : HwEnv :=
  { txFifoStatus := fun _ _ => 0x80, rxFifoStatus := fun _ _ => 1,
    rxWord := fun k => 0x11223344 + k,
    intStatus := fun _ => I2C_INT_XFER_COMPLETE_MASK, intStatus0 := 0 }

/-- A 5-byte write transaction to hardware address 0xa0, buffer at 100. -/
def transW5 : i2c_trans_info := write_trans_info 0xa0 100 5

/-- A 5-byte read transaction from hardware address 0xa0, buffer at 200. -/
def transR5 : i2c_trans_info := read_trans_info 0xa0 200 5

/-- A write descriptor whose byte count makes the u32 word-count
computation wrap: `DIV_ROUND_UP(0xffffffff, 4)` is 0 in the C source. -/
def transHugeW : i2c_trans_info := write_trans_info 0xa0 100 4294967295

/-- The read counterpart of `transHugeW`. -/
def transHugeR : i2c_trans_info := read_trans_info 0xa0 200 4294967295

/-- Environment whose tx FIFO drains only for the first payload word. -/
def hwTxFailA : HwEnv :=
  { hwOkA with txFifoStatus := fun k _ => if k = 0 then 0x80 else 0 }

/-- Environment whose rx FIFO fills only for the first payload word. -/
def hwRxFailA : HwEnv :=
  { hwOkA with rxFifoStatus := fun k _ => if k = 0 then 1 else 0 }

/-- Environment that never reports transfer completion (nor any error). -/
def hwXferFailA : HwEnv := { hwOkA with intStatus := fun _ => 0 }

/-- Environment whose status register reports a no-acknowledge. -/
def hwNackA : HwEnv := { hwOkA with intStatus := fun _ => I2C_INT_NO_ACK_MASK }

/-- Loopback environment: the rx FIFO returns exactly the little-endian
words the write path emits from `memA` at base 100. -/
def hwLoopA : HwEnv :=
  { hwOkA with rxWord := fun j => leWordAt memA (100 + 4 * j) }

/-- An unconfigured (uninitialized) controller slot. -/
def busU : i2c_bus :=
  { id := 0, speed := 0, is_dvc := false, is_scs := false, inited := false }


/-! ## Basic trace accounting lemmas -/

lemma storeEvs_append (a b : List Ev) :
    storeEvs (a ++ b) = storeEvs a ++ storeEvs b := by
  simp [storeEvs, List.filterMap_append]

lemma countTx_append (a b : List Ev) :
    countTx (a ++ b) = countTx a + countTx b := by
  simp [countTx, List.countP_append]

lemma countRx_append (a b : List Ev) :
    countRx (a ++ b) = countRx a + countRx b := by
  simp [countRx, List.countP_append]

lemma storeEvs_storeBytes (v p n : Nat) :
    storeEvs (storeBytes v p n) =
      (List.range n).map fun i => (p + i, (v >>> (8 * i)) % 256) := by
  unfold storeEvs storeBytes
  rw [List.filterMap_map]
  exact congrFun (List.filterMap_eq_map fun i => (p + i, (v >>> (8 * i)) % 256)) _

lemma countTx_storeBytes (v p n : Nat) : countTx (storeBytes v p n) = 0 := by
  unfold countTx storeBytes
  rw [List.countP_map]
  simp [Function.comp_def]

lemma countRx_storeBytes (v p n : Nat) : countRx (storeBytes v p n) = 0 := by
  unfold countRx storeBytes
  rw [List.countP_map]
  simp [Function.comp_def]

lemma countTx_reset (bus : i2c_bus) : countTx (i2c_reset_controller bus) = 0 := by
  unfold i2c_reset_controller set_packet_mode
  cases bus.is_dvc <;> simp [countTx]

lemma countRx_reset (bus : i2c_bus) : countRx (i2c_reset_controller bus) = 0 := by
  unfold i2c_reset_controller set_packet_mode
  cases bus.is_dvc <;> simp [countRx]

lemma storeEvs_reset (bus : i2c_bus) : storeEvs (i2c_reset_controller bus) = [] := by
  unfold i2c_reset_controller set_packet_mode
  cases bus.is_dvc <;> simp [storeEvs]

lemma countTx_pre (bus : i2c_bus) (trans : i2c_trans_info) :
    countTx (Ev.intStatusClear :: send_packet_headers bus trans 1) = 3 := by
  simp [countTx, send_packet_headers]

lemma countRx_pre (bus : i2c_bus) (trans : i2c_trans_info) :
    countRx (Ev.intStatusClear :: send_packet_headers bus trans 1) = 0 := by
  simp [countRx, send_packet_headers]

lemma storeEvs_pre (bus : i2c_bus) (trans : i2c_trans_info) :
    storeEvs (Ev.intStatusClear :: send_packet_headers bus trans 1) = [] := by
  simp [storeEvs, send_packet_headers]

lemma countTx_map_txWrite (g : Nat → Nat) (w : Nat) :
    countTx ((List.range w).map fun j => Ev.txWrite (g j)) = w := by
  unfold countTx
  rw [List.countP_map]
  simp [Function.comp_def]

lemma countRx_map_txWrite (g : Nat → Nat) (w : Nat) :
    countRx ((List.range w).map fun j => Ev.txWrite (g j)) = 0 := by
  unfold countRx
  rw [List.countP_map]
  simp [Function.comp_def]

lemma storeEvs_map_txWrite (g : Nat → Nat) (w : Nat) :
    storeEvs ((List.range w).map fun j => Ev.txWrite (g j)) = [] := by
  unfold storeEvs
  rw [List.filterMap_map]
  simp [Function.comp_def]

/-! ## Byte-level arithmetic lemmas -/

lemma and_three_eq_mod (n : Nat) : n &&& 3 = n % 4 := by
  have h := Nat.and_pow_two_sub_one_eq_mod n 2
  norm_num at h
  exact h

lemma leWordAt_byte (mem : Nat → Nat) (q : Nat) :
    ∀ r, r < 4 → (leWordAt mem q >>> (8 * r)) % 256 = mem (q + r) % 256 := by
  intro r hr
  interval_cases r <;>
    simp [leWordAt, Nat.shiftRight_eq_div_pow] <;> omega

/-! ## Replay of byte stores -/

lemma writeBack_append (l1 l2 : List (Nat × Nat)) (m : Nat → Nat) :
    writeBack (l1 ++ l2) m = writeBack l2 (writeBack l1 m) := by
  simp [writeBack, List.foldl_append]

lemma writeBack_map_range (g : Nat → Nat) (p : Nat) :
    ∀ L (m : Nat → Nat) i, i < L →
      writeBack ((List.range L).map fun j => (p + j, g j)) m (p + i) = g i := by
  intro L
  induction L with
  | zero => intro m i hi; omega
  | succ n ih =>
    intro m i hi
    rw [List.range_succ, List.map_append, writeBack_append]
    rcases Nat.lt_or_ge i n with h | h
    · have hne : p + n ≠ p + i := by omega
      simp only [writeBack, List.map_cons, List.map_nil, List.foldl_cons, List.foldl_nil]
      rw [Function.update_noteq (Ne.symm hne)]
      exact ih m i h
    · have : i = n := by omega
      subst this
      simp only [writeBack, List.map_cons, List.map_nil, List.foldl_cons, List.foldl_nil]
      rw [Function.update_same]

/-! ## Poller characterizations -/

lemma wait_rx_loop_values (f : Nat → Nat) :
    ∀ fuel i, wait_rx_loop f fuel i = 0 ∨ wait_rx_loop f fuel i = 1 := by
  intro fuel
  induction fuel with
  | zero => intro i; left; rfl
  | succ n ih =>
    intro i
    by_cases h : rx_fifo_full_cnt (f i) ≠ 0
    · right; simp [wait_rx_loop, h]
    · rw [wait_rx_loop, if_neg h]
      exact ih (i + 1)

lemma wait_rx_loop_eq_one_iff (f : Nat → Nat) :
    ∀ fuel i, wait_rx_loop f fuel i = 1 ↔
      ∃ j, j < fuel ∧ rx_fifo_full_cnt (f (i + j)) ≠ 0 := by
  intro fuel
  induction fuel with
  | zero =>
    intro i
    simp [wait_rx_loop]
  | succ n ih =>
    intro i
    by_cases h : rx_fifo_full_cnt (f i) ≠ 0
    · rw [wait_rx_loop, if_pos h]
      constructor
      · intro _
        exact ⟨0, Nat.succ_pos n, by simpa using h⟩
      · intro _; rfl
    · rw [wait_rx_loop, if_neg h]
      rw [ih (i + 1)]
      constructor
      · rintro ⟨j, hj, hcnt⟩
        exact ⟨j + 1, by omega, by
          have : i + 1 + j = i + (j + 1) := by omega
          rwa [this] at hcnt⟩
      · rintro ⟨j, hj, hcnt⟩
        match j, hcnt with
        | 0, hcnt => exact absurd (by simpa using hcnt) h
        | j + 1, hcnt =>
          exact ⟨j, by omega, by
            have : i + (j + 1) = i + 1 + j := by omega
            rwa [this] at hcnt⟩

lemma wait_rx_loop_congr (f g : Nat → Nat)
    (h : ∀ n, f n &&& TX_FIFO_FULL_CNT_MASK = g n &&& TX_FIFO_FULL_CNT_MASK) :
    ∀ fuel i, wait_rx_loop f fuel i = wait_rx_loop g fuel i := by
  intro fuel
  induction fuel with
  | zero => intro i; rfl
  | succ n ih =>
    intro i
    rw [wait_rx_loop, wait_rx_loop]
    rw [show rx_fifo_full_cnt (f i) = rx_fifo_full_cnt (g i) by
      unfold rx_fifo_full_cnt; rw [h i]]
    by_cases hc : rx_fifo_full_cnt (g i) ≠ 0
    · rw [if_pos hc, if_pos hc]
    · rw [if_neg hc, if_neg hc]
      exact ih (i + 1)

lemma wait_tx_loop_timeout (f : Nat → Nat) :
    ∀ fuel i, (∀ j, j < fuel → tx_fifo_empty_cnt (f (i + j)) ≠ I2C_FIFO_DEPTH) →
      wait_tx_loop f fuel i = 0 := by
  intro fuel
  induction fuel with
  | zero => intro i _; rfl
  | succ n ih =>
    intro i h
    have h0 : tx_fifo_empty_cnt (f i) ≠ I2C_FIFO_DEPTH := by
      simpa using h 0 (Nat.succ_pos n)
    rw [wait_tx_loop, if_neg h0]
    exact ih (i + 1) fun j hj => by
      have := h (j + 1) (by omega)
      rwa [show i + (j + 1) = i + 1 + j by omega] at this

lemma wait_transfer_loop_timeout (f : Nat → Nat) :
    ∀ fuel i,
      (∀ j, j < fuel →
        f (i + j) &&& I2C_INT_NO_ACK_MASK = 0 ∧
        f (i + j) &&& I2C_INT_ARBITRATION_LOST_MASK = 0 ∧
        f (i + j) &&& I2C_INT_XFER_COMPLETE_MASK = 0) →
      wait_transfer_loop f fuel i = -1 := by
  intro fuel
  induction fuel with
  | zero => intro i _; rfl
  | succ n ih =>
    intro i h
    obtain ⟨h1, h2, h3⟩ : _ ∧ _ ∧ _ := by simpa using h 0 (Nat.succ_pos n)
    simp only [wait_transfer_loop, h1, h2, h3]
    norm_num
    exact ih (i + 1) fun j hj => by
      have := h (j + 1) (by omega)
      rwa [show i + (j + 1) = i + 1 + j by omega] at this

lemma wait_transfer_loop_protocol_error (f : Nat → Nat) :
    ∀ t fuel i, t < fuel →
      (∀ j, j < t →
        f (i + j) &&& I2C_INT_NO_ACK_MASK = 0 ∧
        f (i + j) &&& I2C_INT_ARBITRATION_LOST_MASK = 0 ∧
        f (i + j) &&& I2C_INT_XFER_COMPLETE_MASK = 0) →
      (f (i + t) &&& I2C_INT_NO_ACK_MASK ≠ 0 ∨
        f (i + t) &&& I2C_INT_ARBITRATION_LOST_MASK ≠ 0) →
      wait_transfer_loop f fuel i = -(f (i + t) : Int) := by
  intro t
  induction t with
  | zero =>
    intro fuel i hf hpast hhit
    match fuel, hf with
    | n + 1, _ =>
      simp only [Nat.add_zero] at hhit ⊢
      by_cases h1 : f i &&& I2C_INT_NO_ACK_MASK ≠ 0
      · simp [wait_transfer_loop, h1]
      · have h2 : f i &&& I2C_INT_ARBITRATION_LOST_MASK ≠ 0 := by tauto
        simp [wait_transfer_loop, h1, h2]
  | succ t ih =>
    intro fuel i hf hpast hhit
    match fuel, hf with
    | n + 1, hf =>
      obtain ⟨h1, h2, h3⟩ : _ ∧ _ ∧ _ := by simpa using hpast 0 (Nat.succ_pos t)
      simp only [wait_transfer_loop, h1, h2, h3]
      norm_num
      have := ih n (i + 1) (by omega)
        (fun j hj => by
          have := hpast (j + 1) (by omega)
          rwa [show i + (j + 1) = i + 1 + j by omega] at this)
        (by rwa [show i + (t + 1) = i + 1 + t by omega] at hhit)
      rwa [show i + 1 + t = i + (t + 1) by omega] at this

lemma wait_transfer_loop_complete (f : Nat → Nat) :
    ∀ t fuel i, t < fuel →
      (∀ j, j < t →
        f (i + j) &&& I2C_INT_NO_ACK_MASK = 0 ∧
        f (i + j) &&& I2C_INT_ARBITRATION_LOST_MASK = 0 ∧
        f (i + j) &&& I2C_INT_XFER_COMPLETE_MASK = 0) →
      f (i + t) &&& I2C_INT_NO_ACK_MASK = 0 →
      f (i + t) &&& I2C_INT_ARBITRATION_LOST_MASK = 0 →
      f (i + t) &&& I2C_INT_XFER_COMPLETE_MASK ≠ 0 →
      wait_transfer_loop f fuel i = 0 := by
  intro t
  induction t with
  | zero =>
    intro fuel i hf hpast h1 h2 h3
    match fuel, hf with
    | n + 1, _ =>
      simp only [Nat.add_zero] at h1 h2 h3
      simp [wait_transfer_loop, h1, h2, h3]
  | succ t ih =>
    intro fuel i hf hpast h1 h2 h3
    match fuel, hf with
    | n + 1, hf =>
      obtain ⟨g1, g2, g3⟩ : _ ∧ _ ∧ _ := by simpa using hpast 0 (Nat.succ_pos t)
      simp only [wait_transfer_loop, g1, g2, g3]
      norm_num
      exact ih n (i + 1) (by omega)
        (fun j hj => by
          have := hpast (j + 1) (by omega)
          rwa [show i + (j + 1) = i + 1 + j by omega] at this)
        (by rwa [show i + (t + 1) = i + 1 + t by omega] at h1)
        (by rwa [show i + (t + 1) = i + 1 + t by omega] at h2)
        (by rwa [show i + (t + 1) = i + 1 + t by omega] at h3)

/-! ## Closed forms of the word transfer loop -/

lemma txWrite_map_shift (mem : Nat → Nat) (p n : Nat) :
    Ev.txWrite (leWordAt mem p) ::
        (List.range n).map (fun j => Ev.txWrite (leWordAt mem (p + 4 + 4 * j))) =
      (List.range (n + 1)).map fun j => Ev.txWrite (leWordAt mem (p + 4 * j)) := by
  rw [List.range_succ_eq_map, List.map_cons, List.map_map]
  congr 1
  norm_num
  intro a ha
  congr 1
  omega

lemma xfer_words_write_ok (hw : HwEnv) (mem : Nat → Nat) (lb : Nat) :
    ∀ w p k, (∀ j, wait_for_tx_fifo_empty (hw.txFifoStatus (k + j)) = 1) →
      xfer_words hw mem true lb w p k =
        ((List.range w).map fun j => Ev.txWrite (leWordAt mem (p + 4 * j)), 0) := by
  intro w
  induction w with
  | zero => intro p k _; rfl
  | succ n ih =>
    intro p k h
    have h0 : ¬ wait_for_tx_fifo_empty (hw.txFifoStatus k) = 0 := by
      rw [show wait_for_tx_fifo_empty (hw.txFifoStatus k) = 1 from by simpa using h 0]
      norm_num
    have hrec := ih (p + 4) (k + 1) fun j => by
      have := h (j + 1)
      rwa [show k + (j + 1) = k + 1 + j by omega] at this
    rw [xfer_words, if_pos (rfl : true = true), if_neg h0, hrec]
    dsimp only
    simp only [ite_self]
    rw [Prod.mk.injEq]
    exact ⟨txWrite_map_shift mem p n, rfl⟩

lemma xfer_words_write_fail (hw : HwEnv) (mem : Nat → Nat) (lb : Nat) :
    ∀ t w p k, t < w →
      (∀ j, j < t → wait_for_tx_fifo_empty (hw.txFifoStatus (k + j)) = 1) →
      wait_for_tx_fifo_empty (hw.txFifoStatus (k + t)) = 0 →
      xfer_words hw mem true lb w p k =
        ((List.range (t + 1)).map fun j => Ev.txWrite (leWordAt mem (p + 4 * j)), -1) := by
  intro t
  induction t with
  | zero =>
    intro w p k hw0 hpast hfail
    match w, hw0 with
    | n + 1, _ =>
      simp only [Nat.add_zero] at hfail
      rw [xfer_words, if_pos (rfl : true = true), if_pos hfail]
      simp only [ite_self]
      rw [Prod.mk.injEq]
      refine ⟨?_, rfl⟩
      rw [show List.range 1 = [0] from rfl]
      simp
  | succ t ih =>
    intro w p k hw0 hpast hfail
    match w, hw0 with
    | n + 1, hw0 =>
      have h0 : ¬ wait_for_tx_fifo_empty (hw.txFifoStatus k) = 0 := by
        rw [show wait_for_tx_fifo_empty (hw.txFifoStatus k) = 1 from by
          simpa using hpast 0 (Nat.succ_pos t)]
        norm_num
      have hrec := ih n (p + 4) (k + 1) (by omega)
        (fun j hj => by
          have := hpast (j + 1) (by omega)
          rwa [show k + (j + 1) = k + 1 + j by omega] at this)
        (by rwa [show k + (t + 1) = k + 1 + t by omega] at hfail)
      rw [xfer_words, if_pos (rfl : true = true), if_neg h0, hrec]
      dsimp only
      simp only [ite_self]
      rw [Prod.mk.injEq]
      exact ⟨txWrite_map_shift mem p (t + 1), rfl⟩

lemma xfer_words_read_ok (hw : HwEnv) (mem : Nat → Nat) (lb : Nat) :
    ∀ w p k, (∀ j, wait_for_rx_fifo_notempty (hw.rxFifoStatus (k + j)) = 1) →
      xfer_words hw mem false lb w p k = (recvEvs hw lb w p k, 0) := by
  intro w
  induction w with
  | zero => intro p k _; rfl
  | succ n ih =>
    intro p k h
    have h0 : ¬ wait_for_rx_fifo_notempty (hw.rxFifoStatus k) = 0 := by
      rw [show wait_for_rx_fifo_notempty (hw.rxFifoStatus k) = 1 from by simpa using h 0]
      norm_num
    have hrec := ih (p + 4) (k + 1) fun j => by
      have := h (j + 1)
      rwa [show k + (j + 1) = k + 1 + j by omega] at this
    rw [xfer_words, if_neg (by simp : ¬ (false = true)), if_neg h0, hrec, recvEvs]
    simp only [ite_self, Prod.mk.injEq, List.cons.injEq, List.append_cancel_right_eq,
      true_and, and_true]
    by_cases h1 : n = 0 <;> by_cases h2 : lb = 0 <;> simp [h1, h2]

lemma xfer_words_read_fail (hw : HwEnv) (mem : Nat → Nat) (lb : Nat) :
    ∀ t w p k, t < w →
      (∀ j, j < t → wait_for_rx_fifo_notempty (hw.rxFifoStatus (k + j)) = 1) →
      wait_for_rx_fifo_notempty (hw.rxFifoStatus (k + t)) = 0 →
      xfer_words hw mem false lb w p k = (recvFullEvs hw t p k, -1) := by
  intro t
  induction t with
  | zero =>
    intro w p k hw0 hpast hfail
    match w, hw0 with
    | n + 1, _ =>
      simp only [Nat.add_zero] at hfail
      rw [xfer_words, if_neg (by simp : ¬ (false = true)), if_pos hfail]
      rfl
  | succ t ih =>
    intro w p k hw0 hpast hfail
    match w, hw0 with
    | n + 1, hw0 =>
      have h0 : ¬ wait_for_rx_fifo_notempty (hw.rxFifoStatus k) = 0 := by
        rw [show wait_for_rx_fifo_notempty (hw.rxFifoStatus k) = 1 from by
          simpa using hpast 0 (Nat.succ_pos t)]
        norm_num
      have hrec := ih n (p + 4) (k + 1) (by omega)
        (fun j hj => by
          have := hpast (j + 1) (by omega)
          rwa [show k + (j + 1) = k + 1 + j by omega] at this)
        (by rwa [show k + (t + 1) = k + 1 + t by omega] at hfail)
      have hn1 : ¬ n = 0 := by omega
      rw [xfer_words, if_neg (by simp : ¬ (false = true)), if_neg h0, hrec, recvFullEvs]
      simp only [ite_self, Prod.mk.injEq, List.cons.injEq, List.append_cancel_right_eq,
        true_and, and_true]
      simp [hn1]

lemma xfer_words_res (hw : HwEnv) (mem : Nat → Nat) (iw : Bool) (lb : Nat) :
    ∀ w p k, (xfer_words hw mem iw lb w p k).2 = 0 ∨
      (xfer_words hw mem iw lb w p k).2 = -1 := by
  intro w
  induction w with
  | zero => intro p k; left; rfl
  | succ n ih =>
    intro p k
    rw [xfer_words]
    cases iw with
    | true =>
      rw [if_pos (rfl : true = true)]
      by_cases h : wait_for_tx_fifo_empty (hw.txFifoStatus k) = 0
      · rw [if_pos h]; right; rfl
      · rw [if_neg h]; exact ih (p + 4) (k + 1)
    | false =>
      rw [if_neg (by simp : ¬ (false = true))]
      by_cases h : wait_for_rx_fifo_notempty (hw.rxFifoStatus k) = 0
      · rw [if_pos h]; right; rfl
      · rw [if_neg h]; exact ih (p + 4) (k + 1)

/-! ## Store and count accounting for the read path -/

lemma countRx_recvEvs (hw : HwEnv) (lb : Nat) :
    ∀ w p k, countRx (recvEvs hw lb w p k) = w := by
  intro w
  induction w with
  | zero => intro p k; rfl
  | succ n ih =>
    intro p k
    rw [recvEvs]
    by_cases hn : n = 0 ∧ lb ≠ 0
    · rw [if_pos hn]
      have h1 := countRx_storeBytes (hw.rxWord k) p lb
      have h2 := ih (p + 4) (k + 1)
      simp only [countRx, List.countP_cons, List.countP_append] at h1 h2 ⊢
      simp [h1, h2]
    · rw [if_neg hn]
      have h1 := countRx_storeBytes (hw.rxWord k) p 4
      have h2 := ih (p + 4) (k + 1)
      simp only [countRx, List.countP_cons, List.countP_append] at h1 h2 ⊢
      simp [h1, h2]

lemma countTx_recvEvs (hw : HwEnv) (lb : Nat) :
    ∀ w p k, countTx (recvEvs hw lb w p k) = 0 := by
  intro w
  induction w with
  | zero => intro p k; rfl
  | succ n ih =>
    intro p k
    rw [recvEvs]
    by_cases hn : n = 0 ∧ lb ≠ 0
    · rw [if_pos hn]
      have h1 := countTx_storeBytes (hw.rxWord k) p lb
      have h2 := ih (p + 4) (k + 1)
      simp only [countTx, List.countP_cons, List.countP_append] at h1 h2 ⊢
      simp [h1, h2]
    · rw [if_neg hn]
      have h1 := countTx_storeBytes (hw.rxWord k) p 4
      have h2 := ih (p + 4) (k + 1)
      simp only [countTx, List.countP_cons, List.countP_append] at h1 h2 ⊢
      simp [h1, h2]

lemma countRx_recvFullEvs (hw : HwEnv) :
    ∀ t p k, countRx (recvFullEvs hw t p k) = t := by
  intro t
  induction t with
  | zero => intro p k; rfl
  | succ n ih =>
    intro p k
    rw [recvFullEvs]
    have h1 := countRx_storeBytes (hw.rxWord k) p 4
    have h2 := ih (p + 4) (k + 1)
    simp only [countRx, List.countP_cons, List.countP_append] at h1 h2 ⊢
    simp [h1, h2]

lemma countTx_recvFullEvs (hw : HwEnv) :
    ∀ t p k, countTx (recvFullEvs hw t p k) = 0 := by
  intro t
  induction t with
  | zero => intro p k; rfl
  | succ n ih =>
    intro p k
    rw [recvFullEvs]
    have h1 := countTx_storeBytes (hw.rxWord k) p 4
    have h2 := ih (p + 4) (k + 1)
    simp only [countTx, List.countP_cons, List.countP_append] at h1 h2 ⊢
    simp [h1, h2]

lemma storeEvs_cons_rxRead (v : Nat) (l : List Ev) :
    storeEvs (Ev.rxRead v :: l) = storeEvs l := by
  simp [storeEvs]

/-- The byte stores of a completed read loop: exactly the `L` buffer bytes
starting at `p`, each receiving the matching low-order byte of the word the
rx FIFO delivered for its 4-byte group. -/
lemma storeEvs_recvEvs (hw : HwEnv) (lb : Nat) (hlb : lb < 4) :
    ∀ w p k L, L = 4 * w + (if lb = 0 then 4 else lb) →
      storeEvs (recvEvs hw lb (w + 1) p k) =
        (List.range L).map fun i =>
          (p + i, (hw.rxWord (k + i / 4) >>> (8 * (i % 4))) % 256) := by
  intro w
  induction w with
  | zero =>
    intro p k L hL
    rw [recvEvs, recvEvs, storeEvs_cons_rxRead, List.append_nil]
    have hn : (if 0 = 0 ∧ lb ≠ 0 then lb else 4) = L := by
      by_cases h2 : lb = 0
      · rw [if_neg (by omega : ¬ (0 = 0 ∧ lb ≠ 0))]
        simp [h2] at hL
        omega
      · rw [if_pos ⟨rfl, h2⟩]
        simp [h2] at hL
        omega
    rw [hn, storeEvs_storeBytes]
    apply List.map_congr_left
    intro a ha
    rw [List.mem_range] at ha
    have ha4 : a < 4 := by
      by_cases h2 : lb = 0 <;> simp [h2] at hL <;> omega
    rw [Nat.div_eq_of_lt ha4, Nat.mod_eq_of_lt ha4, Nat.add_zero]
  | succ n ih =>
    intro p k L hL
    have hL' : L = 4 + (4 * n + (if lb = 0 then 4 else lb)) := by
      by_cases h2 : lb = 0 <;> simp [h2] at hL ⊢ <;> omega
    rw [recvEvs, storeEvs_cons_rxRead, storeEvs_append,
      if_neg (by omega : ¬ (n + 1 = 0 ∧ lb ≠ 0)), storeEvs_storeBytes,
      ih (p + 4) (k + 1) (4 * n + (if lb = 0 then 4 else lb)) rfl, hL',
      List.range_add 4 (4 * n + (if lb = 0 then 4 else lb)),
      List.map_append, List.map_map]
    have hhead2 : (List.range 4).map (fun i => (p + i, (hw.rxWord k >>> (8 * i)) % 256)) =
        (List.range 4).map fun i =>
          (p + i, (hw.rxWord (k + i / 4) >>> (8 * (i % 4))) % 256) := by
      apply List.map_congr_left
      intro a ha
      rw [List.mem_range] at ha
      rw [Nat.div_eq_of_lt ha, Nat.mod_eq_of_lt ha, Nat.add_zero]
    have htail2 : (List.range (4 * n + (if lb = 0 then 4 else lb))).map
          (fun i => (p + 4 + i, (hw.rxWord (k + 1 + i / 4) >>> (8 * (i % 4))) % 256)) =
        (List.range (4 * n + (if lb = 0 then 4 else lb))).map
          ((fun i => (p + i, (hw.rxWord (k + i / 4) >>> (8 * (i % 4))) % 256)) ∘
            fun x => 4 + x) := by
      apply List.map_congr_left
      intro a _
      show (p + 4 + a, (hw.rxWord (k + 1 + a / 4) >>> (8 * (a % 4))) % 256) =
        (p + (4 + a), (hw.rxWord (k + (4 + a) / 4) >>> (8 * ((4 + a) % 4))) % 256)
      have e1 : (4 + a) / 4 = a / 4 + 1 := by omega
      have e2 : (4 + a) % 4 = a % 4 := by omega
      rw [e1, e2, Prod.mk.injEq]
      refine ⟨by omega, ?_⟩
      rw [show k + (a / 4 + 1) = k + 1 + a / 4 from by omega]
    rw [hhead2, htail2]

/-! ## Environment congruence and assembly of `send_recv_packets` -/

lemma xfer_words_intStatus (hw : HwEnv) (g : Nat → Nat) (g0 : Nat)
    (mem : Nat → Nat) (iw : Bool) (lb : Nat) :
    ∀ w p k, xfer_words { hw with intStatus := g, intStatus0 := g0 } mem iw lb w p k =
      xfer_words hw mem iw lb w p k := by
  intro w
  induction w with
  | zero => intro p k; rfl
  | succ n ih =>
    intro p k
    rw [xfer_words, xfer_words]
    simp only [ih]

lemma bne_zero_of_ne {a : Nat} (h : a ≠ 0) : (a != 0) = true := by
  simp [bne_iff_ne]
  exact h

lemma bne_zero_of_eq {a : Nat} (h : a = 0) : (a != 0) = false := by
  simp [h]

lemma send_recv_packets_write (bus : i2c_bus) (trans : i2c_trans_info)
    (hw : HwEnv) (mem : Nat → Nat)
    (hfl : trans.flags &&& I2C_IS_WRITE ≠ 0)
    (hpolls : ∀ k, wait_for_tx_fifo_empty (hw.txFifoStatus k) = 1) :
    send_recv_packets bus trans hw mem =
      if wait_for_transfer_complete hw.intStatus ≠ 0 then
        ((Ev.intStatusClear :: send_packet_headers bus trans 1) ++
          ((List.range (DIV_ROUND_UP trans.num_bytes 4)).map fun j =>
            Ev.txWrite (leWordAt mem (trans.buf + 4 * j))) ++
          i2c_reset_controller bus, -1)
      else
        ((Ev.intStatusClear :: send_packet_headers bus trans 1) ++
          ((List.range (DIV_ROUND_UP trans.num_bytes 4)).map fun j =>
            Ev.txWrite (leWordAt mem (trans.buf + 4 * j))), 0) := by
  have hok := xfer_words_write_ok hw mem (trans.num_bytes &&& 3)
    (DIV_ROUND_UP trans.num_bytes 4) trans.buf 0
    (fun j => by simpa using hpolls j)
  simp only [send_recv_packets, bne_zero_of_ne hfl, hok]
  norm_num

lemma send_recv_packets_read (bus : i2c_bus) (trans : i2c_trans_info)
    (hw : HwEnv) (mem : Nat → Nat)
    (hfl : trans.flags &&& I2C_IS_WRITE = 0)
    (hpolls : ∀ k, wait_for_rx_fifo_notempty (hw.rxFifoStatus k) = 1) :
    send_recv_packets bus trans hw mem =
      if wait_for_transfer_complete hw.intStatus ≠ 0 then
        ((Ev.intStatusClear :: send_packet_headers bus trans 1) ++
          recvEvs hw (trans.num_bytes &&& 3) (DIV_ROUND_UP trans.num_bytes 4)
            trans.buf 0 ++ i2c_reset_controller bus, -1)
      else
        ((Ev.intStatusClear :: send_packet_headers bus trans 1) ++
          recvEvs hw (trans.num_bytes &&& 3) (DIV_ROUND_UP trans.num_bytes 4)
            trans.buf 0, 0) := by
  have hok := xfer_words_read_ok hw mem (trans.num_bytes &&& 3)
    (DIV_ROUND_UP trans.num_bytes 4) trans.buf 0
    (fun j => by simpa using hpolls j)
  simp only [send_recv_packets, bne_zero_of_eq hfl, hok]
  norm_num

/-! ## Header field lemmas -/

lemma pkt_hdr2_of_le (L : Nat) (h1 : 1 ≤ L) (h2 : L ≤ 4096) :
    pkt_hdr2 L = L - 1 := by
  simp only [pkt_hdr2, PKT_HDR2_PAYLOAD_SIZE_SHIFT, u32, Nat.shiftLeft_zero]
  omega

lemma pkt_hdr2_field (L : Nat) (h1 : 1 ≤ L) (h2 : L ≤ 4096) :
    (pkt_hdr2 L &&& PKT_HDR2_PAYLOAD_SIZE_MASK) >>> PKT_HDR2_PAYLOAD_SIZE_SHIFT =
      L - 1 := by
  rw [pkt_hdr2_of_le L h1 h2]
  simp only [PKT_HDR2_PAYLOAD_SIZE_MASK, PKT_HDR2_PAYLOAD_SIZE_SHIFT,
    Nat.shiftLeft_zero, Nat.shiftRight_zero]
  rw [show (0xfff : Nat) = 2 ^ 12 - 1 from by norm_num,
    Nat.and_pow_two_sub_one_eq_mod]
  omega

lemma pkt_hdr3_write_case (addr flags : Nat) (hf : flags &&& I2C_IS_WRITE ≠ 0)
    (ha : addr < 4294967296) :
    pkt_hdr3 addr flags = addr := by
  simp only [pkt_hdr3, PKT_HDR3_SLAVE_ADDR_SHIFT, u32, Nat.shiftLeft_zero,
    if_neg hf]
  exact Nat.mod_eq_of_lt ha

lemma pkt_hdr3_testBit (addr flags : Nat) (ha : addr < 256) (n : Nat) :
    (pkt_hdr3 addr flags).testBit n =
      (addr.testBit n || (decide (n = PKT_HDR3_READ_MODE_SHIFT) &&
        decide (flags &&& I2C_IS_WRITE = 0))) := by
  have hmod : addr % 4294967296 = addr := Nat.mod_eq_of_lt (by omega)
  by_cases hf : flags &&& I2C_IS_WRITE = 0
  · simp only [pkt_hdr3, PKT_HDR3_SLAVE_ADDR_SHIFT, PKT_HDR3_READ_MODE_MASK,
      PKT_HDR3_READ_MODE_SHIFT, u32, Nat.shiftLeft_zero, if_pos hf, hmod]
    rw [show (1 <<< 19 : Nat) = 2 ^ 19 from by rw [Nat.shiftLeft_eq]; norm_num,
      Nat.testBit_lor]
    by_cases hn : n = 19
    · subst hn
      rw [Nat.testBit_two_pow_self]
      simp [hf]
    · rw [Nat.testBit_two_pow_of_ne (show (19 : Nat) ≠ n from fun h => hn h.symm)]
      simp [hn, hf]
  · simp only [pkt_hdr3, PKT_HDR3_SLAVE_ADDR_SHIFT, PKT_HDR3_READ_MODE_SHIFT,
      u32, Nat.shiftLeft_zero, if_neg hf, hmod]
    simp [hf]

/-! ## Word-count arithmetic -/

/-- Below `0xfffffffd` the u32 sum in `DIV_ROUND_UP` does not wrap and the
word count is the mathematical `ceil(L/4) = (L + 3) / 4`. -/
lemma DIV_ROUND_UP_no_wrap (L : Nat) (hB : L ≤ 4294967292) :
    DIV_ROUND_UP L 4 = (L + 3) / 4 := by
  unfold DIV_ROUND_UP u32
  rw [Nat.mod_eq_of_lt (by omega : L + 4 - 1 < 4294967296)]
  omega

lemma words_decompose (L : Nat) (hL : 1 ≤ L) (hB : L ≤ 4294967292) :
    DIV_ROUND_UP L 4 = (DIV_ROUND_UP L 4 - 1) + 1 ∧
    L = 4 * (DIV_ROUND_UP L 4 - 1) + (if L &&& 3 = 0 then 4 else L &&& 3) ∧
    L &&& 3 < 4 := by
  rw [and_three_eq_mod]
  unfold DIV_ROUND_UP u32
  rw [Nat.mod_eq_of_lt (by omega : L + 4 - 1 < 4294967296)]
  refine ⟨by omega, ?_, by omega⟩
  by_cases h : L % 4 = 0 <;> simp [h] <;> omega

lemma countTx_cons_clear (l : List Ev) :
    countTx (Ev.intStatusClear :: l) = countTx l := by
  simp [countTx, List.countP_cons]

lemma countRx_cons_clear (l : List Ev) :
    countRx (Ev.intStatusClear :: l) = countRx l := by
  simp [countRx, List.countP_cons]

lemma storeEvs_cons_clear (l : List Ev) :
    storeEvs (Ev.intStatusClear :: l) = storeEvs l := by
  simp [storeEvs]

lemma countTx_headers (bus : i2c_bus) (trans : i2c_trans_info) (pid : Nat) :
    countTx (send_packet_headers bus trans pid) = 3 := by
  simp [countTx, send_packet_headers]

lemma countRx_headers (bus : i2c_bus) (trans : i2c_trans_info) (pid : Nat) :
    countRx (send_packet_headers bus trans pid) = 0 := by
  simp [countRx, send_packet_headers]

lemma storeEvs_headers (bus : i2c_bus) (trans : i2c_trans_info) (pid : Nat) :
    storeEvs (send_packet_headers bus trans pid) = [] := by
  simp [storeEvs, send_packet_headers]

/-! ## Claim theorems -/

/-- C3: `send_packet_headers` emits exactly three words to the command
FIFO, in order, with no other register access; header word 2 carries
`payload_length - 1` in the payload-size field; header word 3 carries the
8-bit address in its field, with the read-mode bit set exactly when the
descriptor's write flag is clear; concretely, a write of 3 bytes to 7-bit
address 0x50 goes out with header word 2 equal to 2 and header word 3
equal to 0xa0 (read bit clear). -/
theorem C3_packet_headers :
    (∀ (bus : i2c_bus) (trans : i2c_trans_info) (packet_id : Nat),
      send_packet_headers bus trans packet_id =
        [Ev.txWrite (pkt_hdr1 bus.id packet_id),
         Ev.txWrite (pkt_hdr2 trans.num_bytes),
         Ev.txWrite (pkt_hdr3 trans.address trans.flags)]) ∧
    (∀ L, 1 ≤ L → L ≤ 4096 →
      (pkt_hdr2 L &&& PKT_HDR2_PAYLOAD_SIZE_MASK) >>> PKT_HDR2_PAYLOAD_SIZE_SHIFT
        = L - 1) ∧
    (∀ addr flags n, addr < 256 →
      (pkt_hdr3 addr flags).testBit n =
        (addr.testBit n || (decide (n = PKT_HDR3_READ_MODE_SHIFT) &&
          decide (flags &&& I2C_IS_WRITE = 0)))) ∧
    (∀ (bus : i2c_bus) (bufBase : Nat) (hw : HwEnv) (mem : Nat → Nat),
      i2c_write_data bus 0x50 bufBase 3 hw mem =
        send_recv_packets bus (write_trans_info 0xa0 bufBase 3) hw mem) ∧
    pkt_hdr2 3 = 2 ∧
    pkt_hdr3 0xa0 I2C_IS_WRITE = 0xa0 ∧
    0xa0 &&& PKT_HDR3_READ_MODE_MASK = 0 :=
  ⟨fun _ _ _ => rfl, fun L h1 h2 => pkt_hdr2_field L h1 h2,
   fun addr flags n ha => pkt_hdr3_testBit addr flags ha n,
   fun _ _ _ _ => rfl, by decide, by decide, by decide⟩

/-- Witness for C3 at concrete inputs. -/
theorem C3_packet_headers_witness :
    (pkt_hdr2 5 &&& PKT_HDR2_PAYLOAD_SIZE_MASK) >>> PKT_HDR2_PAYLOAD_SIZE_SHIFT = 4 ∧
    (pkt_hdr3 0xa0 I2C_IS_WRITE).testBit PKT_HDR3_READ_MODE_SHIFT =
      ((0xa0 : Nat).testBit PKT_HDR3_READ_MODE_SHIFT ||
        (decide (PKT_HDR3_READ_MODE_SHIFT = PKT_HDR3_READ_MODE_SHIFT) &&
          decide (I2C_IS_WRITE &&& I2C_IS_WRITE = 0))) :=
  ⟨C3_packet_headers.2.1 5 (by norm_num) (by norm_num),
   C3_packet_headers.2.2.1 0xa0 I2C_IS_WRITE PKT_HDR3_READ_MODE_SHIFT (by norm_num)⟩

/-- C1 (amended): for every payload length `1 ≤ L ≤ 0xfffffffc` (the range
where the u32 word-count computation does not wrap), with responsive
hardware, the word transfer loop performs exactly `ceil(L/4) = (L + 3) / 4`
payload FIFO word operations: that many tx-FIFO word writes beyond the
three header words in the write direction, and that many rx-FIFO word
reads (with exactly the three header tx writes) in the read direction. -/
theorem C1_fifo_word_count (bus : i2c_bus) (trans : i2c_trans_info)
    (hw : HwEnv) (mem : Nat → Nat) (hL : 1 ≤ trans.num_bytes)
    (hB : trans.num_bytes ≤ 4294967292) :
    (trans.flags &&& I2C_IS_WRITE ≠ 0 →
      (∀ k, wait_for_tx_fifo_empty (hw.txFifoStatus k) = 1) →
      countTx (send_recv_packets bus trans hw mem).1 =
        3 + (trans.num_bytes + 3) / 4 ∧
      countRx (send_recv_packets bus trans hw mem).1 = 0) ∧
    (trans.flags &&& I2C_IS_WRITE = 0 →
      (∀ k, wait_for_rx_fifo_notempty (hw.rxFifoStatus k) = 1) →
      countRx (send_recv_packets bus trans hw mem).1 =
        (trans.num_bytes + 3) / 4 ∧
      countTx (send_recv_packets bus trans hw mem).1 = 3) := by
  rw [show (trans.num_bytes + 3) / 4 = DIV_ROUND_UP trans.num_bytes 4 from
    (DIV_ROUND_UP_no_wrap trans.num_bytes hB).symm]
  constructor
  · intro hfl hpolls
    rw [send_recv_packets_write bus trans hw mem hfl hpolls]
    by_cases hx : wait_for_transfer_complete hw.intStatus ≠ 0
    · rw [if_pos hx]
      simp [countTx_append, countRx_append, countTx_cons_clear, countRx_cons_clear,
        countTx_headers, countRx_headers,
        countTx_reset, countRx_reset, countTx_map_txWrite, countRx_map_txWrite]
    · rw [if_neg hx]
      simp [countTx_append, countRx_append, countTx_cons_clear, countRx_cons_clear,
        countTx_headers, countRx_headers, countTx_map_txWrite, countRx_map_txWrite]
  · intro hfl hpolls
    rw [send_recv_packets_read bus trans hw mem hfl hpolls]
    by_cases hx : wait_for_transfer_complete hw.intStatus ≠ 0
    · rw [if_pos hx]
      simp [countTx_append, countRx_append, countTx_cons_clear, countRx_cons_clear,
        countTx_headers, countRx_headers,
        countTx_reset, countRx_reset, countTx_recvEvs, countRx_recvEvs]
    · rw [if_neg hx]
      simp [countTx_append, countRx_append, countTx_cons_clear, countRx_cons_clear,
        countTx_headers, countRx_headers, countTx_recvEvs, countRx_recvEvs]

/-- Witness for C1 at concrete 5-byte write and read transactions. -/
theorem C1_fifo_word_count_witness :
    (countTx (send_recv_packets busA transW5 hwOkA memA).1 =
        3 + (transW5.num_bytes + 3) / 4 ∧
      countRx (send_recv_packets busA transW5 hwOkA memA).1 = 0) ∧
    (countRx (send_recv_packets busA transR5 hwOkA memA).1 =
        (transR5.num_bytes + 3) / 4 ∧
      countTx (send_recv_packets busA transR5 hwOkA memA).1 = 3) :=
  ⟨(C1_fifo_word_count busA transW5 hwOkA memA (by decide) (by decide)).1
      (by decide)
      (fun _ => show wait_for_tx_fifo_empty (fun _ => (0x80 : Nat)) = 1 from by decide),
   (C1_fifo_word_count busA transR5 hwOkA memA (by decide) (by decide)).2
      (by decide)
      (fun _ => show wait_for_rx_fifo_notempty (fun _ => (1 : Nat)) = 1 from by decide)⟩

/-- Counterexample to C1 as stated: at payload length `0xffffffff` the C
word count `DIV_ROUND_UP(num_bytes, 4)` wraps to 0, so the engine performs
zero payload FIFO word operations (only the three header writes) although
`ceil(L/4) = 2^30 ≠ 0`. -/
theorem C1_counterexample :
    countTx (send_recv_packets busA transHugeW hwOkA memA).1 = 3 ∧
    countRx (send_recv_packets busA transHugeW hwOkA memA).1 = 0 ∧
    (4294967295 + 3) / 4 = 1073741824 ∧ (1073741824 : Nat) ≠ 0 := by
  decide

/-- C2: on the read path (responsive hardware, `L ≥ 1`) the byte stores
into the destination buffer are exactly offsets `buf .. buf+L-1`, each
taking the matching low-order byte of its group's received FIFO word — in
particular no byte past offset `L-1` is written, and when `L mod 4 ≠ 0`
the final word contributes exactly `L mod 4` stores; on the write path
every payload FIFO operation, the final one included, is a full 32-bit
word write and no buffer byte is stored.  Payload lengths are bounded by
`0xfffffffc`, the range where the C's u32 word-count computation does not
wrap. -/
theorem C2_partial_final_word (bus : i2c_bus) (trans : i2c_trans_info)
    (hw : HwEnv) (mem : Nat → Nat) (hL : 1 ≤ trans.num_bytes)
    (hB : trans.num_bytes ≤ 4294967292) :
    (trans.flags &&& I2C_IS_WRITE = 0 →
      (∀ k, wait_for_rx_fifo_notempty (hw.rxFifoStatus k) = 1) →
      storeEvs (send_recv_packets bus trans hw mem).1 =
        (List.range trans.num_bytes).map (fun i =>
          (trans.buf + i, (hw.rxWord (i / 4) >>> (8 * (i % 4))) % 256)) ∧
      (∀ ab ∈ storeEvs (send_recv_packets bus trans hw mem).1,
        ab.1 < trans.buf + trans.num_bytes) ∧
      (storeEvs (send_recv_packets bus trans hw mem).1).length =
        trans.num_bytes ∧
      (trans.num_bytes % 4 ≠ 0 →
        ((storeEvs (send_recv_packets bus trans hw mem).1).drop
            (4 * ((trans.num_bytes + 3) / 4 - 1))).length =
          trans.num_bytes % 4)) ∧
    (trans.flags &&& I2C_IS_WRITE ≠ 0 →
      (∀ k, wait_for_tx_fifo_empty (hw.txFifoStatus k) = 1) →
      countTx (send_recv_packets bus trans hw mem).1 =
        3 + (trans.num_bytes + 3) / 4 ∧
      storeEvs (send_recv_packets bus trans hw mem).1 = []) := by
  rw [show (trans.num_bytes + 3) / 4 = DIV_ROUND_UP trans.num_bytes 4 from
    (DIV_ROUND_UP_no_wrap trans.num_bytes hB).symm]
  obtain ⟨hW, hLdec, hlb⟩ := words_decompose trans.num_bytes hL hB
  constructor
  · intro hfl hpolls
    have hmaster : storeEvs (recvEvs hw (trans.num_bytes &&& 3)
        (DIV_ROUND_UP trans.num_bytes 4) trans.buf 0) =
        (List.range trans.num_bytes).map (fun i =>
          (trans.buf + i, (hw.rxWord (i / 4) >>> (8 * (i % 4))) % 256)) := by
      rw [hW, storeEvs_recvEvs hw (trans.num_bytes &&& 3) hlb
        (DIV_ROUND_UP trans.num_bytes 4 - 1) trans.buf 0 trans.num_bytes hLdec]
      apply List.map_congr_left
      intro a _
      rw [Nat.zero_add]
    have htrace : storeEvs (send_recv_packets bus trans hw mem).1 =
        (List.range trans.num_bytes).map (fun i =>
          (trans.buf + i, (hw.rxWord (i / 4) >>> (8 * (i % 4))) % 256)) := by
      rw [send_recv_packets_read bus trans hw mem hfl hpolls]
      by_cases hx : wait_for_transfer_complete hw.intStatus ≠ 0
      · rw [if_pos hx]
        simp only [storeEvs_append, storeEvs_cons_clear, storeEvs_headers,
          storeEvs_reset, List.append_nil, List.nil_append]
        rw [← hmaster]
      · rw [if_neg hx]
        simp only [storeEvs_append, storeEvs_cons_clear, storeEvs_headers,
          List.nil_append]
        rw [← hmaster]
    refine ⟨htrace, ?_, ?_, ?_⟩
    · intro ab hab
      rw [htrace] at hab
      obtain ⟨i, hi, rfl⟩ := List.mem_map.mp hab
      rw [List.mem_range] at hi
      show trans.buf + i < trans.buf + trans.num_bytes
      omega
    · rw [htrace]
      simp
    · intro hmod
      rw [htrace, List.length_drop]
      simp only [List.length_map, List.length_range]
      rw [and_three_eq_mod] at hLdec
      rw [if_neg hmod] at hLdec
      omega
  · intro hfl hpolls
    rw [send_recv_packets_write bus trans hw mem hfl hpolls]
    by_cases hx : wait_for_transfer_complete hw.intStatus ≠ 0
    · rw [if_pos hx]
      simp [countTx_append, countTx_cons_clear, countTx_headers, countTx_reset,
        countTx_map_txWrite, storeEvs_append, storeEvs_cons_clear,
        storeEvs_headers, storeEvs_reset, storeEvs_map_txWrite]
    · rw [if_neg hx]
      simp [countTx_append, countTx_cons_clear, countTx_headers,
        countTx_map_txWrite, storeEvs_append, storeEvs_cons_clear,
        storeEvs_headers, storeEvs_map_txWrite]

/-- Witness for C2: the 5-byte read fills offsets 200..204 (the final word
contributing exactly one byte), and the 5-byte write issues two full word
writes after the three headers with no buffer stores. -/
theorem C2_partial_final_word_witness :
    storeEvs (send_recv_packets busA transR5 hwOkA memA).1 =
      (List.range transR5.num_bytes).map (fun i =>
        (transR5.buf + i, (hwOkA.rxWord (i / 4) >>> (8 * (i % 4))) % 256)) ∧
    ((storeEvs (send_recv_packets busA transR5 hwOkA memA).1).drop
        (4 * ((transR5.num_bytes + 3) / 4 - 1))).length =
      transR5.num_bytes % 4 ∧
    countTx (send_recv_packets busA transW5 hwOkA memA).1 =
      3 + (transW5.num_bytes + 3) / 4 ∧
    storeEvs (send_recv_packets busA transW5 hwOkA memA).1 = [] := by
  have hr := (C2_partial_final_word busA transR5 hwOkA memA (by decide)
      (by decide)).1
    (by decide)
    (fun _ => show wait_for_rx_fifo_notempty (fun _ => (1 : Nat)) = 1 from by decide)
  have hwr := (C2_partial_final_word busA transW5 hwOkA memA (by decide)
      (by decide)).2
    (by decide)
    (fun _ => show wait_for_tx_fifo_empty (fun _ => (0x80 : Nat)) = 1 from by decide)
  exact ⟨hr.1, hr.2.2.2 (by decide), hwr.1, hwr.2⟩

/-- Counterexample to C2 as stated: at payload length `0xffffffff` the
wrapped word count is 0, the read path performs no FIFO read and stores
nothing into the destination buffer, so the final-word partial copy the
claim asserts never happens. -/
theorem C2_counterexample :
    storeEvs (send_recv_packets busA transHugeR hwOkA memA).1 = [] ∧
    (storeEvs (send_recv_packets busA transHugeR hwOkA memA).1).length ≠
      4294967295 := by
  decide

/-- C10: for a zero-length payload the engine still clears status and
sends the three header words, performs no payload FIFO word operation and
no buffer store, and proceeds directly to the transfer-complete wait
(resetting the controller exactly when that wait fails); header word 2 is
computed from the wrapped value `(0 - 1) mod 2^32` shifted into the
payload-size field, i.e. `0xffffffff`. -/
theorem C10_zero_length_transfer (bus : i2c_bus) (addr bufB flags b10 : Nat)
    (hw : HwEnv) (mem : Nat → Nat) :
    send_recv_packets bus ⟨addr, bufB, flags, 0, b10⟩ hw mem =
      ((Ev.intStatusClear :: send_packet_headers bus ⟨addr, bufB, flags, 0, b10⟩ 1) ++
        (if wait_for_transfer_complete hw.intStatus ≠ 0 then
          i2c_reset_controller bus else []),
       if wait_for_transfer_complete hw.intStatus ≠ 0 then -1 else 0) ∧
    countTx (send_recv_packets bus ⟨addr, bufB, flags, 0, b10⟩ hw mem).1 = 3 ∧
    countRx (send_recv_packets bus ⟨addr, bufB, flags, 0, b10⟩ hw mem).1 = 0 ∧
    storeEvs (send_recv_packets bus ⟨addr, bufB, flags, 0, b10⟩ hw mem).1 = [] ∧
    pkt_hdr2 0 = u32 ((4294967296 - 1) <<< PKT_HDR2_PAYLOAD_SIZE_SHIFT) ∧
    pkt_hdr2 0 = 4294967295 := by
  have hxw : ∀ iw : Bool,
      xfer_words hw mem iw ((0 : Nat) &&& 3) (DIV_ROUND_UP 0 4) bufB 0 = ([], 0) :=
    fun _ => rfl
  have hmain : send_recv_packets bus ⟨addr, bufB, flags, 0, b10⟩ hw mem =
      ((Ev.intStatusClear :: send_packet_headers bus ⟨addr, bufB, flags, 0, b10⟩ 1) ++
        (if wait_for_transfer_complete hw.intStatus ≠ 0 then
          i2c_reset_controller bus else []),
       if wait_for_transfer_complete hw.intStatus ≠ 0 then -1 else 0) := by
    simp only [send_recv_packets, hxw]
    by_cases hx : wait_for_transfer_complete hw.intStatus ≠ 0
    · simp [hx]
    · simp [hx]
  refine ⟨hmain, ?_, ?_, ?_, by decide, by decide⟩
  · rw [hmain]
    by_cases hx : wait_for_transfer_complete hw.intStatus ≠ 0 <;>
      simp [hx, countTx_append, countTx_cons_clear, countTx_headers, countTx_reset]
  · rw [hmain]
    by_cases hx : wait_for_transfer_complete hw.intStatus ≠ 0 <;>
      simp [hx, countRx_append, countRx_cons_clear, countRx_headers, countRx_reset]
  · rw [hmain]
    by_cases hx : wait_for_transfer_complete hw.intStatus ≠ 0 <;>
      simp [hx, storeEvs_append, storeEvs_cons_clear, storeEvs_headers, storeEvs_reset]

/-! ## Timeout evaluations on constant register streams -/

lemma wait_tx_const_zero : wait_for_tx_fifo_empty (fun _ => (0 : Nat)) = 0 := by
  unfold wait_for_tx_fifo_empty
  apply wait_tx_loop_timeout
  intro j _
  decide

lemma wait_rx_const_zero : wait_for_rx_fifo_notempty (fun _ => (0 : Nat)) = 0 := by
  unfold wait_for_rx_fifo_notempty
  rcases wait_rx_loop_values (fun _ => (0 : Nat)) pollReads 0 with h | h
  · exact h
  · exfalso
    obtain ⟨j, _, hj⟩ := (wait_rx_loop_eq_one_iff (fun _ => (0 : Nat)) pollReads 0).mp h
    exact hj (by decide)

lemma wait_xfer_const_zero : wait_for_transfer_complete (fun _ => (0 : Nat)) = -1 := by
  unfold wait_for_transfer_complete
  apply wait_transfer_loop_timeout
  intro j _
  refine ⟨by decide, by decide, by decide⟩

lemma wait_xfer_const_complete :
    wait_for_transfer_complete (fun _ => I2C_INT_XFER_COMPLETE_MASK) = 0 := by
  decide

lemma completeEnv_intStatus (hw : HwEnv) :
    ({ hw with intStatus := fun _ => I2C_INT_XFER_COMPLETE_MASK } : HwEnv).intStatus
      = fun _ => I2C_INT_XFER_COMPLETE_MASK := rfl

/-- C5: any poll failure inside `send_recv_packets` aborts the transfer at
once: a tx-empty timeout at payload word `t` leaves exactly the `t+1` words
written before the failure was detected, an rx timeout at word `t` leaves
exactly the `t` completed words, and a transfer-complete failure leaves
exactly the successful trace — in every case followed by the recovery path
(peripheral reset, packet-mode configuration write, and the slave-config
bit for non-DVC controllers) before the nonzero error `-1` is returned,
with no retry (the trace is the single attempt's trace). -/
theorem C5_abort_and_recovery :
    (∀ (bus : i2c_bus) (trans : i2c_trans_info) (hw : HwEnv) (mem : Nat → Nat)
        (t : Nat),
      trans.flags &&& I2C_IS_WRITE ≠ 0 →
      t < DIV_ROUND_UP trans.num_bytes 4 →
      (∀ j, j < t → wait_for_tx_fifo_empty (hw.txFifoStatus j) = 1) →
      wait_for_tx_fifo_empty (hw.txFifoStatus t) = 0 →
      send_recv_packets bus trans hw mem =
        ((Ev.intStatusClear :: send_packet_headers bus trans 1) ++
          ((List.range (t + 1)).map fun j =>
            Ev.txWrite (leWordAt mem (trans.buf + 4 * j))) ++
          i2c_reset_controller bus, -1)) ∧
    (∀ (bus : i2c_bus) (trans : i2c_trans_info) (hw : HwEnv) (mem : Nat → Nat)
        (t : Nat),
      trans.flags &&& I2C_IS_WRITE = 0 →
      t < DIV_ROUND_UP trans.num_bytes 4 →
      (∀ j, j < t → wait_for_rx_fifo_notempty (hw.rxFifoStatus j) = 1) →
      wait_for_rx_fifo_notempty (hw.rxFifoStatus t) = 0 →
      send_recv_packets bus trans hw mem =
        ((Ev.intStatusClear :: send_packet_headers bus trans 1) ++
          recvFullEvs hw t trans.buf 0 ++ i2c_reset_controller bus, -1)) ∧
    (∀ (bus : i2c_bus) (trans : i2c_trans_info) (hw : HwEnv) (mem : Nat → Nat),
      (∀ k, wait_for_tx_fifo_empty (hw.txFifoStatus k) = 1) →
      (∀ k, wait_for_rx_fifo_notempty (hw.rxFifoStatus k) = 1) →
      wait_for_transfer_complete hw.intStatus ≠ 0 →
      send_recv_packets bus trans hw mem =
        ((send_recv_packets bus trans
            { hw with intStatus := fun _ => I2C_INT_XFER_COMPLETE_MASK } mem).1 ++
          i2c_reset_controller bus, -1)) ∧
    (∀ bus : i2c_bus, i2c_reset_controller bus =
      Ev.resetPeriph ::
        Ev.cfgWrite (u32 (I2C_CNFG_NEW_MASTER_FSM_MASK ||| I2C_CNFG_PACKET_MODE_MASK)) ::
        (if bus.is_dvc then [] else [Ev.slCnfgSet])) := by
  refine ⟨?_, ?_, ?_, ?_⟩
  · intro bus trans hw mem t hfl ht hpast hfail
    have hfailm := xfer_words_write_fail hw mem (trans.num_bytes &&& 3) t
      (DIV_ROUND_UP trans.num_bytes 4) trans.buf 0 ht
      (fun j hj => by simpa using hpast j hj)
      (by simpa using hfail)
    simp only [send_recv_packets, bne_zero_of_ne hfl, hfailm]
    norm_num
  · intro bus trans hw mem t hfl ht hpast hfail
    have hfailm := xfer_words_read_fail hw mem (trans.num_bytes &&& 3) t
      (DIV_ROUND_UP trans.num_bytes 4) trans.buf 0 ht
      (fun j hj => by simpa using hpast j hj)
      (by simpa using hfail)
    simp only [send_recv_packets, bne_zero_of_eq hfl, hfailm]
    norm_num
  · intro bus trans hw mem hptx hprx hx
    have hres : (xfer_words hw mem (trans.flags &&& I2C_IS_WRITE != 0)
        (trans.num_bytes &&& 3) (DIV_ROUND_UP trans.num_bytes 4) trans.buf 0).2
        = 0 := by
      cases hiw : (trans.flags &&& I2C_IS_WRITE != 0) with
      | true =>
        rw [xfer_words_write_ok hw mem (trans.num_bytes &&& 3)
          (DIV_ROUND_UP trans.num_bytes 4) trans.buf 0
          (fun j => by simpa using hptx j)]
      | false =>
        rw [xfer_words_read_ok hw mem (trans.num_bytes &&& 3)
          (DIV_ROUND_UP trans.num_bytes 4) trans.buf 0
          (fun j => by simpa using hprx j)]
    have hloopC := xfer_words_intStatus hw (fun _ => I2C_INT_XFER_COMPLETE_MASK)
      hw.intStatus0 mem (trans.flags &&& I2C_IS_WRITE != 0) (trans.num_bytes &&& 3)
      (DIV_ROUND_UP trans.num_bytes 4) trans.buf 0
    simp only [send_recv_packets, hloopC, hres, completeEnv_intStatus,
      wait_xfer_const_complete]
    norm_num [hx]
  · intro bus
    cases hd : bus.is_dvc <;> simp [i2c_reset_controller, set_packet_mode, hd]

/-- Witness for C5 at concrete failing environments. -/
theorem C5_abort_and_recovery_witness :
    send_recv_packets busA transW5 hwTxFailA memA =
      ((Ev.intStatusClear :: send_packet_headers busA transW5 1) ++
        ((List.range 2).map fun j =>
          Ev.txWrite (leWordAt memA (transW5.buf + 4 * j))) ++
        i2c_reset_controller busA, -1) ∧
    send_recv_packets busA transR5 hwRxFailA memA =
      ((Ev.intStatusClear :: send_packet_headers busA transR5 1) ++
        recvFullEvs hwRxFailA 1 transR5.buf 0 ++ i2c_reset_controller busA, -1) ∧
    send_recv_packets busA transW5 hwXferFailA memA =
      ((send_recv_packets busA transW5
          { hwXferFailA with intStatus := fun _ => I2C_INT_XFER_COMPLETE_MASK }
          memA).1 ++ i2c_reset_controller busA, -1) ∧
    i2c_reset_controller busA =
      Ev.resetPeriph ::
        Ev.cfgWrite (u32 (I2C_CNFG_NEW_MASTER_FSM_MASK ||| I2C_CNFG_PACKET_MODE_MASK)) ::
        (if busA.is_dvc then [] else [Ev.slCnfgSet]) :=
  ⟨C5_abort_and_recovery.1 busA transW5 hwTxFailA memA 1 (by decide) (by decide)
      (fun j hj => by
        have hj0 : j = 0 := by omega
        subst hj0
        decide)
      (show wait_for_tx_fifo_empty (fun _ => (0 : Nat)) = 0 from wait_tx_const_zero),
   C5_abort_and_recovery.2.1 busA transR5 hwRxFailA memA 1 (by decide) (by decide)
      (fun j hj => by
        have hj0 : j = 0 := by omega
        subst hj0
        decide)
      (show wait_for_rx_fifo_notempty (fun _ => (0 : Nat)) = 0 from wait_rx_const_zero),
   C5_abort_and_recovery.2.2.1 busA transW5 hwXferFailA memA
      (fun _ => show wait_for_tx_fifo_empty (fun _ => (0x80 : Nat)) = 1 from by decide)
      (fun _ => show wait_for_rx_fifo_notempty (fun _ => (1 : Nat)) = 1 from by decide)
      (by
        rw [show hwXferFailA.intStatus = fun _ => (0 : Nat) from rfl,
          wait_xfer_const_zero]
        decide),
   C5_abort_and_recovery.2.2.2 busA⟩

/-- C4 (amended): the transfer-complete poller itself classifies failures —
it returns the negated status snapshot when it first observes a no-ack or
arbitration-lost bit, a result distinguishable from the `-1` it returns
when the budget expires with none of the awaited bits ever set, and it
returns success (0) only on the transfer-complete bit; but
`send_recv_packets` collapses every failure to `-1` before returning, so
its caller receives `-1` for protocol errors and timeouts alike, and
receives 0 only when the poller reported completion. -/
theorem C4_amended_error_reporting :
    (∀ (f : Nat → Nat) (t : Nat), t < pollReads →
      (∀ j, j < t →
        f j &&& I2C_INT_NO_ACK_MASK = 0 ∧
        f j &&& I2C_INT_ARBITRATION_LOST_MASK = 0 ∧
        f j &&& I2C_INT_XFER_COMPLETE_MASK = 0) →
      (f t &&& I2C_INT_NO_ACK_MASK ≠ 0 ∨
        f t &&& I2C_INT_ARBITRATION_LOST_MASK ≠ 0) →
      wait_for_transfer_complete f = -(f t : Int)) ∧
    (∀ f : Nat → Nat,
      (∀ i, i < pollReads →
        f i &&& I2C_INT_NO_ACK_MASK = 0 ∧
        f i &&& I2C_INT_ARBITRATION_LOST_MASK = 0 ∧
        f i &&& I2C_INT_XFER_COMPLETE_MASK = 0) →
      wait_for_transfer_complete f = -1) ∧
    (∀ (f : Nat → Nat) (t : Nat), t < pollReads →
      (∀ j, j < t →
        f j &&& I2C_INT_NO_ACK_MASK = 0 ∧
        f j &&& I2C_INT_ARBITRATION_LOST_MASK = 0 ∧
        f j &&& I2C_INT_XFER_COMPLETE_MASK = 0) →
      f t &&& I2C_INT_NO_ACK_MASK = 0 →
      f t &&& I2C_INT_ARBITRATION_LOST_MASK = 0 →
      f t &&& I2C_INT_XFER_COMPLETE_MASK ≠ 0 →
      wait_for_transfer_complete f = 0) ∧
    (∀ (bus : i2c_bus) (trans : i2c_trans_info) (hw : HwEnv) (mem : Nat → Nat),
      (send_recv_packets bus trans hw mem).2 ≠ 0 →
      (send_recv_packets bus trans hw mem).2 = -1) ∧
    (∀ (bus : i2c_bus) (trans : i2c_trans_info) (hw : HwEnv) (mem : Nat → Nat),
      (send_recv_packets bus trans hw mem).2 = 0 →
      wait_for_transfer_complete hw.intStatus = 0) := by
  refine ⟨?_, ?_, ?_, ?_, ?_⟩
  · intro f t ht hpast hhit
    unfold wait_for_transfer_complete
    have := wait_transfer_loop_protocol_error f t pollReads 0 ht
      (fun j hj => by simpa using hpast j hj)
      (by simpa using hhit)
    simpa using this
  · intro f h
    unfold wait_for_transfer_complete
    exact wait_transfer_loop_timeout f pollReads 0 fun j hj => by simpa using h j hj
  · intro f t ht hpast h1 h2 h3
    unfold wait_for_transfer_complete
    exact wait_transfer_loop_complete f t pollReads 0 ht
      (fun j hj => by simpa using hpast j hj)
      (by simpa using h1) (by simpa using h2) (by simpa using h3)
  · intro bus trans hw mem h
    rcases xfer_words_res hw mem (trans.flags &&& I2C_IS_WRITE != 0)
      (trans.num_bytes &&& 3) (DIV_ROUND_UP trans.num_bytes 4) trans.buf 0
      with h0 | hm1
    · by_cases hx : wait_for_transfer_complete hw.intStatus ≠ 0
      · simp [send_recv_packets, h0, hx]
      · exfalso
        apply h
        simp [send_recv_packets, h0, hx]
    · simp [send_recv_packets, hm1]
  · intro bus trans hw mem h
    by_cases hx : wait_for_transfer_complete hw.intStatus ≠ 0
    · exfalso
      rcases xfer_words_res hw mem (trans.flags &&& I2C_IS_WRITE != 0)
        (trans.num_bytes &&& 3) (DIV_ROUND_UP trans.num_bytes 4) trans.buf 0
        with h0 | hm1
      · rw [show (send_recv_packets bus trans hw mem).2 = -1 from by
          simp [send_recv_packets, h0, hx]] at h
        norm_num at h
      · rw [show (send_recv_packets bus trans hw mem).2 = -1 from by
          simp [send_recv_packets, hm1]] at h
        norm_num at h
    · simpa using hx

/-- Witness for the amended C4 at concrete status streams. -/
theorem C4_amended_error_reporting_witness :
    wait_for_transfer_complete (fun _ => I2C_INT_NO_ACK_MASK) =
      -((I2C_INT_NO_ACK_MASK : Nat) : Int) ∧
    wait_for_transfer_complete (fun _ => (0 : Nat)) = -1 ∧
    wait_for_transfer_complete (fun _ => I2C_INT_XFER_COMPLETE_MASK) = 0 ∧
    (send_recv_packets busA transW5 hwNackA memA).2 = -1 ∧
    wait_for_transfer_complete hwOkA.intStatus = 0 :=
  ⟨C4_amended_error_reporting.1 (fun _ => I2C_INT_NO_ACK_MASK) 0 (by decide)
      (fun _ hj => absurd hj (by omega)) (Or.inl (by decide)),
   C4_amended_error_reporting.2.1 (fun _ => (0 : Nat))
      (fun _ _ =>
        ⟨show (0 : Nat) &&& I2C_INT_NO_ACK_MASK = 0 from by decide,
         show (0 : Nat) &&& I2C_INT_ARBITRATION_LOST_MASK = 0 from by decide,
         show (0 : Nat) &&& I2C_INT_XFER_COMPLETE_MASK = 0 from by decide⟩),
   C4_amended_error_reporting.2.2.1 (fun _ => I2C_INT_XFER_COMPLETE_MASK) 0
      (by decide) (fun _ hj => absurd hj (by omega)) (by decide) (by decide)
      (by decide),
   C4_amended_error_reporting.2.2.2.1 busA transW5 hwNackA memA (by decide),
   C4_amended_error_reporting.2.2.2.2 busA transW5 hwOkA memA (by decide)⟩

/-- Counterexample to C4 as stated: on a no-acknowledge the poller returns
the distinguishable snapshot `-8`, but `send_recv_packets` returns `-1` to
its caller — exactly the value it also returns on a pure timeout — so the
specific kind is not reported to the caller of the transfer. -/
theorem C4_counterexample :
    wait_for_transfer_complete (fun _ => I2C_INT_NO_ACK_MASK) = -8 ∧
    wait_for_transfer_complete hwXferFailA.intStatus = -1 ∧
    (send_recv_packets busA transW5 hwNackA memA).2 = -1 ∧
    (send_recv_packets busA transW5 hwXferFailA memA).2 = -1 ∧
    (-8 : Int) ≠ -1 := by
  refine ⟨by decide, wait_xfer_const_zero, by decide, ?_, by decide⟩
  rw [send_recv_packets_write busA transW5 hwXferFailA memA (by decide)
    (fun _ => show wait_for_tx_fifo_empty (fun _ => (0x80 : Nat)) = 1 from by decide)]
  rw [if_pos (by
    rw [show hwXferFailA.intStatus = fun _ => (0 : Nat) from rfl, wait_xfer_const_zero]
    decide)]

/-- C7: the receive-ready poll succeeds (returns 1) exactly when some
`fifo_status` reading within the budget has a nonzero receive-FIFO
occupied count, returns the not-ready result 0 exactly when none does,
and its result depends only on the occupied-count field — never on the
transmit-FIFO bits of the status register. -/
theorem C7_rx_ready_poll :
    (∀ f : Nat → Nat, wait_for_rx_fifo_notempty f = 1 ↔
      ∃ i, i < pollReads ∧ rx_fifo_full_cnt (f i) ≠ 0) ∧
    (∀ f : Nat → Nat, wait_for_rx_fifo_notempty f = 0 ↔
      ∀ i, i < pollReads → rx_fifo_full_cnt (f i) = 0) ∧
    (∀ f g : Nat → Nat,
      (∀ n, f n &&& TX_FIFO_FULL_CNT_MASK = g n &&& TX_FIFO_FULL_CNT_MASK) →
      wait_for_rx_fifo_notempty f = wait_for_rx_fifo_notempty g) := by
  have hone : ∀ f : Nat → Nat, wait_for_rx_fifo_notempty f = 1 ↔
      ∃ i, i < pollReads ∧ rx_fifo_full_cnt (f i) ≠ 0 := by
    intro f
    unfold wait_for_rx_fifo_notempty
    rw [wait_rx_loop_eq_one_iff]
    constructor
    · rintro ⟨j, hj, hc⟩
      exact ⟨j, hj, by simpa using hc⟩
    · rintro ⟨i, hi, hc⟩
      exact ⟨i, hi, by simpa using hc⟩
  refine ⟨hone, ?_, ?_⟩
  · intro f
    constructor
    · intro h0 i hi
      by_contra hc
      have h1 : wait_for_rx_fifo_notempty f = 1 := (hone f).mpr ⟨i, hi, hc⟩
      omega
    · intro hall
      rcases wait_rx_loop_values f pollReads 0 with h | h
      · exact h
      · exfalso
        obtain ⟨i, hi, hc⟩ := (hone f).mp h
        exact hc (hall i hi)
  · intro f g hfg
    unfold wait_for_rx_fifo_notempty
    exact wait_rx_loop_congr f g hfg pollReads 0

/-- Witness for C7: a stream with an occupied entry succeeds, a stream
whose only nonzero bits are transmit-FIFO state does not, and two streams
differing only in transmit-FIFO bits poll identically. -/
theorem C7_rx_ready_poll_witness :
    (wait_for_rx_fifo_notempty (fun _ => (1 : Nat)) = 1 ↔
      ∃ i, i < pollReads ∧ rx_fifo_full_cnt ((fun _ => (1 : Nat)) i) ≠ 0) ∧
    (wait_for_rx_fifo_notempty (fun _ => (0x80 : Nat)) = 0 ↔
      ∀ i, i < pollReads → rx_fifo_full_cnt ((fun _ => (0x80 : Nat)) i) = 0) ∧
    wait_for_rx_fifo_notempty (fun _ => (0x80 : Nat)) =
      wait_for_rx_fifo_notempty (fun _ => (0xf0 : Nat)) :=
  ⟨C7_rx_ready_poll.1 (fun _ => 1),
   C7_rx_ready_poll.2.1 (fun _ => 0x80),
   C7_rx_ready_poll.2.2 (fun _ => 0x80) (fun _ => 0xf0)
     (fun _ => show (0x80 : Nat) &&& TX_FIFO_FULL_CNT_MASK =
       (0xf0 : Nat) &&& TX_FIFO_FULL_CNT_MASK from by decide)⟩

/-- C8: on the write path each payload FIFO word is the little-endian
reinterpretation of the corresponding 4 source bytes (the final word
padded from the bytes that follow the buffer), for any buffer alignment;
and a write of `L` bytes followed by a read of `L` bytes through a
loopback FIFO (the rx stream returns exactly the words the write path
emits) reproduces the original `L` bytes in the destination buffer.
Payload lengths are bounded by `0xfffffffc`, the range where the C's u32
word-count computation does not wrap. -/
theorem C8_endianness_roundtrip (bus1 bus2 : i2c_bus) (a1 a2 sbase dbase L : Nat)
    (hw1 hw2 : HwEnv) (mem m0 : Nat → Nat) (hL : 1 ≤ L)
    (hB : L ≤ 4294967292)
    (hptx : ∀ k, wait_for_tx_fifo_empty (hw1.txFifoStatus k) = 1)
    (hx1 : wait_for_transfer_complete hw1.intStatus = 0)
    (hprx : ∀ k, wait_for_rx_fifo_notempty (hw2.rxFifoStatus k) = 1)
    (hloop : ∀ j, hw2.rxWord j = leWordAt mem (sbase + 4 * j)) :
    tegra_i2c_write_data bus1 a1 sbase L hw1 mem =
      ((Ev.intStatusClear ::
          send_packet_headers bus1 (write_trans_info a1 sbase L) 1) ++
        ((List.range ((L + 3) / 4)).map fun j =>
          Ev.txWrite (leWordAt mem (sbase + 4 * j))), 0) ∧
    (∀ i, i < L →
      writeBack (storeEvs (tegra_i2c_read_data bus2 a2 dbase L hw2 m0).1) m0
        (dbase + i) = mem (sbase + i) % 256) := by
  rw [show (L + 3) / 4 = DIV_ROUND_UP L 4 from (DIV_ROUND_UP_no_wrap L hB).symm]
  constructor
  · show send_recv_packets bus1 (write_trans_info a1 sbase L) hw1 mem = _
    rw [send_recv_packets_write bus1 (write_trans_info a1 sbase L) hw1 mem
      (show I2C_IS_WRITE &&& I2C_IS_WRITE ≠ 0 from by decide) hptx]
    rw [if_neg (by simp [hx1])]
    rfl
  · intro i hi
    obtain ⟨hW, hLdec, hlb⟩ := words_decompose L hL hB
    have hfl : (read_trans_info a2 dbase L).flags &&& I2C_IS_WRITE = 0 :=
      show (0 : Nat) &&& I2C_IS_WRITE = 0 from by decide
    have hmaster : storeEvs
        (send_recv_packets bus2 (read_trans_info a2 dbase L) hw2 m0).1 =
        (List.range L).map (fun j => (dbase + j,
          (hw2.rxWord (j / 4) >>> (8 * (j % 4))) % 256)) := by
      rw [send_recv_packets_read bus2 (read_trans_info a2 dbase L) hw2 m0 hfl hprx]
      have hrecv : storeEvs (recvEvs hw2
          ((read_trans_info a2 dbase L).num_bytes &&& 3)
          (DIV_ROUND_UP (read_trans_info a2 dbase L).num_bytes 4)
          (read_trans_info a2 dbase L).buf 0) =
          (List.range L).map (fun j => (dbase + j,
            (hw2.rxWord (j / 4) >>> (8 * (j % 4))) % 256)) := by
        show storeEvs (recvEvs hw2 (L &&& 3) (DIV_ROUND_UP L 4) dbase 0) = _
        rw [hW, storeEvs_recvEvs hw2 (L &&& 3) hlb (DIV_ROUND_UP L 4 - 1)
          dbase 0 L hLdec]
        apply List.map_congr_left
        intro a _
        rw [Nat.zero_add]
      by_cases hx : wait_for_transfer_complete hw2.intStatus ≠ 0
      · rw [if_pos hx]
        simp only [storeEvs_append, storeEvs_cons_clear, storeEvs_headers,
          storeEvs_reset, List.append_nil, List.nil_append]
        exact hrecv
      · rw [if_neg hx]
        simp only [storeEvs_append, storeEvs_cons_clear, storeEvs_headers,
          List.nil_append]
        exact hrecv
    show writeBack (storeEvs
      (send_recv_packets bus2 (read_trans_info a2 dbase L) hw2 m0).1) m0
      (dbase + i) = mem (sbase + i) % 256
    rw [hmaster,
      writeBack_map_range (fun j => (hw2.rxWord (j / 4) >>> (8 * (j % 4))) % 256)
        dbase L m0 i hi,
      hloop (i / 4),
      leWordAt_byte mem (sbase + 4 * (i / 4)) (i % 4) (by omega),
      show sbase + 4 * (i / 4) + i % 4 = sbase + i from by omega]

/-- Witness for C8: concrete 5-byte loopback from source base 100 to
destination base 200. -/
theorem C8_endianness_roundtrip_witness :
    tegra_i2c_write_data busA 0xa0 100 5 hwOkA memA =
      ((Ev.intStatusClear ::
          send_packet_headers busA (write_trans_info 0xa0 100 5) 1) ++
        ((List.range ((5 + 3) / 4)).map fun j =>
          Ev.txWrite (leWordAt memA (100 + 4 * j))), 0) ∧
    writeBack (storeEvs (tegra_i2c_read_data busA 0xa1 200 5 hwLoopA memA).1)
      memA (200 + 4) = memA (100 + 4) % 256 :=
  ⟨(C8_endianness_roundtrip busA busA 0xa0 0xa1 100 200 5 hwOkA hwLoopA memA memA
      (by decide) (by decide)
      (fun _ => show wait_for_tx_fifo_empty (fun _ => (0x80 : Nat)) = 1 from by decide)
      (by decide)
      (fun _ => show wait_for_rx_fifo_notempty (fun _ => (1 : Nat)) = 1 from by decide)
      (fun _ => rfl)).1,
   (C8_endianness_roundtrip busA busA 0xa0 0xa1 100 200 5 hwOkA hwLoopA memA memA
      (by decide) (by decide)
      (fun _ => show wait_for_tx_fifo_empty (fun _ => (0x80 : Nat)) = 1 from by decide)
      (by decide)
      (fun _ => show wait_for_rx_fifo_notempty (fun _ => (1 : Nat)) = 1 from by decide)
      (fun _ => rfl)).2 4 (by omega)⟩

/-- Counterexample to C8 as stated: at payload length `0xffffffff` the
wrapped word count is 0, so the write path emits no payload word at all
(only the three header writes) and the loopback read stores nothing, so
the roundtrip leaves the destination byte at offset 0 unchanged (7) while
the source byte is 101. -/
theorem C8_counterexample :
    countTx (tegra_i2c_write_data busA 0xa0 100 4294967295 hwOkA memA).1 = 3 ∧
    storeEvs (tegra_i2c_read_data busA 0xa1 200 4294967295 hwLoopA
      (fun _ => 7)).1 = [] ∧
    writeBack (storeEvs (tegra_i2c_read_data busA 0xa1 200 4294967295 hwLoopA
      (fun _ => 7)).1) (fun _ => 7) (200 + 0) = 7 ∧
    memA (100 + 0) % 256 = 101 ∧ (7 : Nat) ≠ 101 := by
  decide

/-- C9: probe on an initialized controller performs a single 1-byte write
of a zero byte to the (left-shifted) chip address and reports presence
(return 0) exactly when that write reports no error; any nonzero write
error makes probe report absence (return 1). -/
theorem C9_probe_zero_write (buses : Nat → i2c_bus) (hwadapnr chip base : Nat)
    (pad : Nat → Nat) (hw : HwEnv)
    (hinit : (buses hwadapnr).inited = true) :
    tegra_i2c_probe buses hwadapnr chip base pad hw =
      ((if (i2c_write_data (buses hwadapnr) chip base 1 hw
            (probe_mem base pad)).2 ≠ 0 then 1 else 0),
       (i2c_write_data (buses hwadapnr) chip base 1 hw (probe_mem base pad)).1) ∧
    ((tegra_i2c_probe buses hwadapnr chip base pad hw).1 = 0 ↔
      (i2c_write_data (buses hwadapnr) chip base 1 hw (probe_mem base pad)).2 = 0) ∧
    ((i2c_write_data (buses hwadapnr) chip base 1 hw (probe_mem base pad)).2 ≠ 0 →
      (tegra_i2c_probe buses hwadapnr chip base pad hw).1 = 1) ∧
    i2c_write_data (buses hwadapnr) chip base 1 hw (probe_mem base pad) =
      send_recv_packets (buses hwadapnr)
        (write_trans_info (u32 (chip <<< 1)) base 1) hw (probe_mem base pad) ∧
    (write_trans_info (u32 (chip <<< 1)) base 1).num_bytes = 1 ∧
    (write_trans_info (u32 (chip <<< 1)) base 1).flags &&& I2C_IS_WRITE ≠ 0 ∧
    probe_mem base pad base = 0 := by
  have hsome : tegra_i2c_get_bus buses hwadapnr = some (buses hwadapnr) := by
    unfold tegra_i2c_get_bus
    rw [hinit]
    simp
  have hmain : tegra_i2c_probe buses hwadapnr chip base pad hw =
      ((if (i2c_write_data (buses hwadapnr) chip base 1 hw
            (probe_mem base pad)).2 ≠ 0 then 1 else 0),
       (i2c_write_data (buses hwadapnr) chip base 1 hw (probe_mem base pad)).1) := by
    unfold tegra_i2c_probe
    rw [hsome]
  refine ⟨hmain, ?_, ?_, rfl, rfl,
    show I2C_IS_WRITE &&& I2C_IS_WRITE ≠ 0 from by decide, by simp [probe_mem]⟩
  · rw [hmain]
    rcases eq_or_ne (i2c_write_data (buses hwadapnr) chip base 1 hw
      (probe_mem base pad)).2 0 with hz | hnz
    · simp [hz]
    · simp [hnz]
  · intro hnz
    rw [hmain]
    simp [hnz]

/-- Witness for C9: probing address 0x50 on an initialized controller with
responsive hardware. -/
theorem C9_probe_zero_write_witness :
    (tegra_i2c_probe (fun _ => busA) 0 0x50 300 memA hwOkA).1 = 0 ↔
      (i2c_write_data busA 0x50 300 1 hwOkA (probe_mem 300 memA)).2 = 0 :=
  (C9_probe_zero_write (fun _ => busA) 0 0x50 300 memA hwOkA (by decide)).2.1

/-- C6 (amended): on an uninitialized controller, `tegra_i2c_read`,
`tegra_i2c_write` and `tegra_i2c_probe` return the nonzero error 1 with no
register access, no transfer and no memory mutation; `tegra_i2c_set_bus_speed`
likewise performs no register access and no re-initialization, but returns
0 — the same value its success path returns — so it signals no error. -/
theorem C6_amended_uninitialized_guard (buses : Nat → i2c_bus)
    (n chip addr alen bufB dataB len base speed : Nat)
    (pad mem : Nat → Nat) (hws : Nat → HwEnv) (hw : HwEnv)
    (hun : (buses n).inited = false) :
    tegra_i2c_read buses n chip addr alen bufB dataB len hws mem = (1, [], mem) ∧
    tegra_i2c_write buses n chip addr alen bufB dataB len hws mem = (1, []) ∧
    tegra_i2c_probe buses n chip base pad hw = (1, []) ∧
    tegra_i2c_set_bus_speed buses n speed = (0, []) := by
  have hnone : tegra_i2c_get_bus buses n = none := by
    unfold tegra_i2c_get_bus
    rw [hun]
    simp
  refine ⟨?_, ?_, ?_, ?_⟩
  · unfold tegra_i2c_read
    rw [hnone]
  · unfold tegra_i2c_write
    rw [hnone]
  · unfold tegra_i2c_probe
    rw [hnone]
  · unfold tegra_i2c_set_bus_speed
    rw [hnone]

/-- Witness for the amended C6 on a concrete uninitialized table. -/
theorem C6_amended_uninitialized_guard_witness :
    tegra_i2c_read (fun _ => busU) 0 0x50 0 1 0 50 4 (fun _ => hwOkA) memA =
      (1, [], memA) ∧
    tegra_i2c_write (fun _ => busU) 0 0x50 0 1 0 50 4 (fun _ => hwOkA) memA =
      (1, []) ∧
    tegra_i2c_probe (fun _ => busU) 0 0x50 300 memA hwOkA = (1, []) ∧
    tegra_i2c_set_bus_speed (fun _ => busU) 0 100000 = (0, []) :=
  C6_amended_uninitialized_guard (fun _ => busU) 0 0x50 0 1 0 50 4 300 100000
    memA memA (fun _ => hwOkA) hwOkA (by decide)

/-- Counterexample to C6 as stated: `tegra_i2c_set_bus_speed` on an
uninitialized controller returns 0 and does nothing, while on an
initialized controller the success path also returns 0 (after a nonempty
re-initialization) — so the uninitialized call does not return an error
distinguishable from success. -/
theorem C6_counterexample :
    tegra_i2c_set_bus_speed (fun _ => busU) 0 100000 = (0, []) ∧
    (tegra_i2c_set_bus_speed (fun _ => busA) 0 100000).1 = 0 ∧
    (tegra_i2c_set_bus_speed (fun _ => busA) 0 100000).2 ≠ [] := by
  refine ⟨?_, rfl, by decide⟩
  have hnone : tegra_i2c_get_bus (fun _ => busU) 0 = none := by
    unfold tegra_i2c_get_bus
    simp [busU]
  unfold tegra_i2c_set_bus_speed
  rw [hnone]
